import Mathlib

/-!
Shallow embedding of the zelux editing core (gap buffer, cursor, undo
engine, search) from `src/buffer.rs`, `src/cursor.rs`, `src/undo.rs` and
`src/editor.rs`, together with theorems settling the specification claims.

Modelling conventions:
- Rust byte strings are `List Nat` (each element a byte value);
  `String::from_utf8_lossy` round-trips are elided, so a Rust `String`
  holding text is represented by its byte list.
- `Vec` stacks (`undo`, `redo`) are lists with the head as the top of the
  stack; `Vec::push`/`pop` become cons / head-tail.
- The monotonic clock is a `Nat` millisecond parameter threaded into
  `record`; `Instant::elapsed` becomes truncated subtraction against it.
- `to_lowercase` is embedded byte-wise as the ASCII lowercase map; this
  agrees with Rust on the ASCII fragment all concrete claim inputs use,
  and the structural search properties do not depend on the folding map.
- Rust's `copy_within` (memmove) is `writeSeg`: overwrite a segment of a
  list with bytes read from the original list.
-/

/-- Bytes of an ASCII string literal, used to state concrete examples. -/
def strBytes (s : String) : List Nat :=
  s.data.map Char.toNat

/-- Overwrite `l` starting at `dst` with segment `seg`, keeping the rest:
this is the effect of Rust's `copy_within`/`copy_from_slice` writing
`seg` at offset `dst` (memmove semantics, sources read before writes). -/
def writeSeg (l : List Nat) (dst : Nat) (seg : List Nat) : List Nat :=
  l.take dst ++ seg ++ l.drop (dst + seg.length)

-- ---------------------------------------------------------------------------
-- Buffer (src/buffer.rs)
-- ---------------------------------------------------------------------------

/-- Gap buffer state, from `struct Buffer` in src/buffer.rs (the
`file_path` field only serves I/O and is omitted). -/
structure Buffer where
  data : List Nat
  gap_start : Nat
  gap_end : Nat
  lines : List Nat
  modified : Bool
deriving DecidableEq, Repr

/-- `INITIAL_GAP` constant from src/buffer.rs. -/
def INITIAL_GAP : Nat := 1024

/-- `Buffer::gap_len`. -/
def Buffer.gapLen (b : Buffer) : Nat := b.gap_end - b.gap_start

/-- `Buffer::len`: logical length. -/
def Buffer.len (b : Buffer) : Nat := b.data.length - b.gapLen

/-- `Buffer::logical_to_physical`. -/
def Buffer.logicalToPhysical (b : Buffer) (pos : Nat) : Nat :=
  if pos < b.gap_start then pos else pos + b.gapLen

/-- `Buffer::byte_at`. -/
def Buffer.byteAt (b : Buffer) (pos : Nat) : Option Nat :=
  if b.len ≤ pos then none
  else some (b.data.getD (b.logicalToPhysical pos) 0)

/-- `Buffer::text_bytes`: bytes before the gap ++ bytes after the gap.
`Buffer::text` is `from_utf8_lossy` of this, so it also models `text()`. -/
def Buffer.textBytes (b : Buffer) : List Nat :=
  b.data.take b.gap_start ++ b.data.drop b.gap_end

/-- `Buffer::rebuild_lines`: push 0, then `i + 1` for every logical index
`i` holding a newline byte. -/
def Buffer.rebuildLines (b : Buffer) : Buffer :=
  let ls := (List.range b.len).filterMap
    (fun i => if b.byteAt i = some 10 then some (i + 1) else none)
  { b with lines := 0 :: ls }

/-- `Buffer::new`. -/
def Buffer.new : Buffer :=
  { data := List.replicate INITIAL_GAP 0
    gap_start := 0
    gap_end := INITIAL_GAP
    lines := [0]
    modified := false }

/-- `Buffer::from_file`, given the bytes `fs::read` produced: gap sized
`max INITIAL_GAP (len / 4)`, then the line index is rebuilt. -/
def Buffer.fromFile (content : List Nat) : Buffer :=
  let gapSize := max INITIAL_GAP (content.length / 4)
  Buffer.rebuildLines
    { data := content ++ List.replicate gapSize 0
      gap_start := content.length
      gap_end := content.length + gapSize
      lines := []
      modified := false }

/-- `Buffer::move_gap`. -/
def Buffer.moveGap (b : Buffer) (pos : Nat) : Buffer :=
  let pos := min pos b.len
  if pos = b.gap_start then b
  else if pos < b.gap_start then
    let count := b.gap_start - pos
    let dst := b.gap_end - count
    { b with data := writeSeg b.data dst ((b.data.drop pos).take count)
             gap_start := pos
             gap_end := dst }
  else
    let count := pos - b.gap_start
    { b with data := writeSeg b.data b.gap_start ((b.data.drop b.gap_end).take count)
             gap_start := pos
             gap_end := b.gap_end + count }

/-- `Buffer::ensure_gap`: grow by `max INITIAL_GAP (max (len / 4) needed)`
zero bytes at the end and relocate the post-gap bytes to the new end. -/
def Buffer.ensureGap (b : Buffer) (needed : Nat) : Buffer :=
  if needed ≤ b.gapLen then b
  else
    let grow := max INITIAL_GAP (max (b.len / 4) needed)
    let oldLen := b.data.length
    let afterGap := oldLen - b.gap_end
    let data1 := b.data ++ List.replicate grow 0
    if 0 < afterGap then
      let newAfterStart := data1.length - afterGap
      { b with data := writeSeg data1 newAfterStart ((data1.drop b.gap_end).take afterGap)
               gap_end := newAfterStart }
    else
      { b with data := data1, gap_end := data1.length }

/-- `Buffer::insert`. -/
def Buffer.insert (b : Buffer) (pos : Nat) (text : List Nat) : Buffer :=
  let pos := min pos b.len
  let b := b.ensureGap text.length
  let b := b.moveGap pos
  let b := { b with data := writeSeg b.data b.gap_start text
                    gap_start := b.gap_start + text.length
                    modified := true }
  b.rebuildLines

/-- `Buffer::delete`: returns the mutated buffer and the removed bytes. -/
def Buffer.delete (b : Buffer) (pos len : Nat) : Buffer × List Nat :=
  if len = 0 ∨ b.len ≤ pos then (b, [])
  else
    let len := min len (b.len - pos)
    let deleted := (List.range' pos len).filterMap (fun i => b.byteAt i)
    let b := b.moveGap pos
    let b := { b with gap_end := b.gap_end + len, modified := true }
    (b.rebuildLines, deleted)

/-- `Buffer::line_count`. -/
def Buffer.lineCount (b : Buffer) : Nat := b.lines.length

/-- `Buffer::get_line`: bytes of one line, excluding its newline. -/
def Buffer.getLine (b : Buffer) (line : Nat) : Option (List Nat) :=
  if b.lines.length ≤ line then none
  else
    let start := b.lines.getD line 0
    let stop :=
      if line + 1 < b.lines.length then b.lines.getD (line + 1) 0 - 1
      else b.len
    some ((List.range' start (stop - start)).filterMap (fun i => b.byteAt i))

/-- `Buffer::is_modified`. -/
def Buffer.isModified (b : Buffer) : Bool := b.modified

/-- Modelled from the spec: `Buffer::slice(start, end)` is called from
src/editor.rs but its body is not among the provided sources; spec
section 4.1 specifies it as a read of the logical bytes in
`[start, end)` through the logical-to-physical translation, which is
exactly a pointwise `byte_at` scan of that range. -/
def Buffer.slice (b : Buffer) (start stop : Nat) : List Nat :=
  (List.range' start (stop - start)).filterMap (fun i => b.byteAt i)

/-- Well-formedness of the gap indices: the invariant every buffer
constructor and mutation maintains. -/
def Buffer.Wf (b : Buffer) : Prop :=
  b.gap_start ≤ b.gap_end ∧ b.gap_end ≤ b.data.length

instance (b : Buffer) : Decidable b.Wf := by
  unfold Buffer.Wf; infer_instance

/-- Canonical line-start index of a logical content: 0, then `i + 1` for
every index `i` holding a newline byte. -/
def lineStartsOf (t : List Nat) : List Nat :=
  0 :: (List.range t.length).filterMap
    (fun i => if t[i]? = some 10 then some (i + 1) else none)

-- ---------------------------------------------------------------------------
-- Cursor (src/cursor.rs)
-- ---------------------------------------------------------------------------

/-- Cursor state, from `struct Cursor` in src/cursor.rs. -/
structure Cursor where
  line : Nat
  col : Nat
  desired_col : Nat
deriving DecidableEq, Repr

/-- Helper `line_byte_len` from src/cursor.rs. -/
def lineByteLen (b : Buffer) (line : Nat) : Nat :=
  match b.getLine line with
  | none => 0
  | some s => s.length

/-- `is_word_byte`: ASCII alphanumeric or underscore. -/
def isWordByte (b : Nat) : Bool :=
  (48 ≤ b && b ≤ 57) || (65 ≤ b && b ≤ 90) || (97 ≤ b && b ≤ 122) || b == 95

/-- Backward walk of `prev_char_boundary`: step back while the byte at
the position is a UTF-8 continuation byte. -/
def walkBack (bytes : List Nat) : Nat → Nat
  | 0 => 0
  | q + 1 => if bytes.getD (q + 1) 0 &&& 0xC0 = 0x80 then walkBack bytes q else q + 1

/-- `prev_char_boundary` from src/cursor.rs. -/
def prevCharBoundary (bytes : List Nat) (byteCol : Nat) : Nat :=
  match byteCol with
  | 0 => 0
  | p + 1 => walkBack bytes p

/-- Forward walk of `next_char_boundary`, fuelled by the line length
(the walk advances one position per step, so the fuel never runs out). -/
def walkFwd (bytes : List Nat) : Nat → Nat → Nat
  | pos, 0 => pos
  | pos, f + 1 =>
    if pos < bytes.length && (bytes.getD pos 0 &&& 0xC0 == 0x80)
    then walkFwd bytes (pos + 1) f else pos

/-- `next_char_boundary` from src/cursor.rs. -/
def nextCharBoundary (bytes : List Nat) (byteCol : Nat) : Nat :=
  if bytes.length ≤ byteCol then bytes.length
  else walkFwd bytes (byteCol + 1) bytes.length

/-- Backward skip over word bytes (`while pos > 0 && is_word_byte(bytes[pos-1])`). -/
def skipWordBack (bytes : List Nat) : Nat → Nat
  | 0 => 0
  | p + 1 => if isWordByte (bytes.getD p 0) then skipWordBack bytes p else p + 1

/-- Backward skip over non-word bytes. -/
def skipNonWordBack (bytes : List Nat) : Nat → Nat
  | 0 => 0
  | p + 1 => if isWordByte (bytes.getD p 0) then p + 1 else skipNonWordBack bytes p

/-- Forward skip over word bytes, fuelled by the line length. -/
def skipWordFwd (bytes : List Nat) : Nat → Nat → Nat
  | pos, 0 => pos
  | pos, f + 1 =>
    if pos < bytes.length && isWordByte (bytes.getD pos 0)
    then skipWordFwd bytes (pos + 1) f else pos

/-- Forward skip over non-word bytes, fuelled by the line length. -/
def skipNonWordFwd (bytes : List Nat) : Nat → Nat → Nat
  | pos, 0 => pos
  | pos, f + 1 =>
    if pos < bytes.length && !isWordByte (bytes.getD pos 0)
    then skipNonWordFwd bytes (pos + 1) f else pos

/-- `Cursor::move_left`. -/
def Cursor.moveLeft (c : Cursor) (b : Buffer) : Cursor :=
  if 0 < c.col then
    let lineText := (b.getLine c.line).getD []
    let col := prevCharBoundary lineText c.col
    { c with col := col, desired_col := col }
  else if 0 < c.line then
    let line := c.line - 1
    let col := lineByteLen b line
    { line := line, col := col, desired_col := col }
  else
    { c with desired_col := c.col }

/-- `Cursor::move_right`. -/
def Cursor.moveRight (c : Cursor) (b : Buffer) : Cursor :=
  let lineLen := lineByteLen b c.line
  if c.col < lineLen then
    let lineText := (b.getLine c.line).getD []
    let col := nextCharBoundary lineText c.col
    { c with col := col, desired_col := col }
  else if c.line + 1 < b.lineCount then
    { line := c.line + 1, col := 0, desired_col := 0 }
  else
    { c with desired_col := c.col }

/-- `Cursor::move_up`. -/
def Cursor.moveUp (c : Cursor) (b : Buffer) : Cursor :=
  if 0 < c.line then
    let line := c.line - 1
    { c with line := line, col := min c.desired_col (lineByteLen b line) }
  else c

/-- `Cursor::move_down`. -/
def Cursor.moveDown (c : Cursor) (b : Buffer) : Cursor :=
  if c.line + 1 < b.lineCount then
    let line := c.line + 1
    { c with line := line, col := min c.desired_col (lineByteLen b line) }
  else c

/-- `Cursor::move_word_left`. -/
def Cursor.moveWordLeft (c : Cursor) (b : Buffer) : Cursor :=
  if c.col = 0 then
    if 0 < c.line then
      let line := c.line - 1
      let col := lineByteLen b line
      { line := line, col := col, desired_col := col }
    else
      { c with desired_col := c.col }
  else
    let bytes := (b.getLine c.line).getD []
    let pos := skipWordBack bytes (skipNonWordBack bytes c.col)
    { c with col := pos, desired_col := pos }

/-- `Cursor::move_word_right`. -/
def Cursor.moveWordRight (c : Cursor) (b : Buffer) : Cursor :=
  let lineLen := lineByteLen b c.line
  if lineLen ≤ c.col then
    if c.line + 1 < b.lineCount then
      { line := c.line + 1, col := 0, desired_col := 0 }
    else
      { c with desired_col := c.col }
  else
    let bytes := (b.getLine c.line).getD []
    let pos := skipNonWordFwd bytes (skipWordFwd bytes c.col bytes.length) bytes.length
    { c with col := pos, desired_col := pos }

/-- First index of a byte that is not a space and not a tab, defaulting
to 0 when the whole line is blank (`position(..).unwrap_or(0)`). -/
def firstNonWs (bytes : List Nat) : Nat :=
  match bytes.findIdx? (fun b => !(b == 32) && !(b == 9)) with
  | some i => i
  | none => 0

/-- `Cursor::move_home` ("smart home"). -/
def Cursor.moveHome (c : Cursor) (b : Buffer) : Cursor :=
  let lineText := (b.getLine c.line).getD []
  let fnw := firstNonWs lineText
  let col :=
    if fnw < c.col then fnw
    else if c.col = fnw ∧ fnw ≠ 0 then 0
    else fnw
  { c with col := col, desired_col := col }

/-- `Cursor::move_end`. -/
def Cursor.moveEnd (c : Cursor) (b : Buffer) : Cursor :=
  let col := lineByteLen b c.line
  { c with col := col, desired_col := col }

/-- `Cursor::move_page_up`. -/
def Cursor.movePageUp (c : Cursor) (b : Buffer) (pageHeight : Nat) : Cursor :=
  let line := c.line - pageHeight
  { c with line := line, col := min c.desired_col (lineByteLen b line) }

/-- `Cursor::move_page_down`. -/
def Cursor.movePageDown (c : Cursor) (b : Buffer) (pageHeight : Nat) : Cursor :=
  let maxLine := b.lineCount - 1
  let line := min (c.line + pageHeight) maxLine
  { c with line := line, col := min c.desired_col (lineByteLen b line) }

/-- `Cursor::clamp`. -/
def Cursor.clamp (c : Cursor) (b : Buffer) : Cursor :=
  let maxLine := b.lineCount - 1
  let line := if maxLine < c.line then maxLine else c.line
  let lineLen := lineByteLen b line
  let col := if lineLen < c.col then lineLen else c.col
  { c with line := line, col := col }

-- ---------------------------------------------------------------------------
-- Undo engine (src/undo.rs)
-- ---------------------------------------------------------------------------

/-- `enum Operation`. -/
inductive Operation where
  | Insert (pos : Nat) (text : List Nat)
  | Delete (pos : Nat) (text : List Nat)
deriving DecidableEq, Repr

/-- `Operation::apply`: Insert inserts its text, Delete removes
`text.len()` bytes at its position (discarding the returned bytes). -/
def Operation.apply (op : Operation) (b : Buffer) : Buffer :=
  match op with
  | .Insert pos text => b.insert pos text
  | .Delete pos text => (b.delete pos text.length).1

/-- `Operation::invert`. -/
def Operation.invert (op : Operation) : Operation :=
  match op with
  | .Insert pos text => .Delete pos text
  | .Delete pos text => .Insert pos text

/-- `struct CursorState`. -/
structure CursorState where
  line : Nat
  col : Nat
  desired_col : Nat
deriving DecidableEq, Repr

/-- `enum GroupContext`. -/
inductive GroupContext where
  | Typing
  | Deleting
  | Paste
  | Cut
  | Other
deriving DecidableEq, Repr

/-- `struct Group` (named `EditGroup` since Mathlib already declares `Group`). -/
structure EditGroup where
  ops : List Operation
  cursor_before : CursorState
  cursor_after : CursorState
deriving DecidableEq, Repr

/-- `GROUP_TIMEOUT_MS`. -/
def GROUP_TIMEOUT_MS : Nat := 500

/-- `struct UndoStack`; the `undo`/`redo` vectors are lists with the head
as top of stack. -/
structure UndoStack where
  undoGroups : List EditGroup
  redoGroups : List EditGroup
  pending : List Operation
  pending_cursor : Option CursorState
  context : GroupContext
  last_edit : Option Nat
  saved_at : Option Nat
deriving DecidableEq, Repr

/-- `UndoStack::new`. -/
def UndoStack.new : UndoStack :=
  { undoGroups := []
    redoGroups := []
    pending := []
    pending_cursor := none
    context := .Other
    last_edit := none
    saved_at := some 0 }

/-- `last_edit.is_none_or(|t| t.elapsed().as_millis() >= GROUP_TIMEOUT_MS)`
with the monotonic clock reading `now` in milliseconds. -/
def timeoutElapsed (lastEdit : Option Nat) (now : Nat) : Bool :=
  match lastEdit with
  | none => true
  | some t => GROUP_TIMEOUT_MS ≤ now - t

/-- `UndoStack::record` at monotonic time `now`. -/
def UndoStack.record (s : UndoStack) (op : Operation) (cursor_before : CursorState)
    (ctx : GroupContext) (now : Nat) : UndoStack :=
  let shouldSplit := s.pending.isEmpty
    || !(ctx == s.context)
    || (ctx == .Paste)
    || (ctx == .Cut)
    || (ctx == .Other)
    || timeoutElapsed s.last_edit now
  let s :=
    if shouldSplit && !s.pending.isEmpty then
      { s with pending := []
               undoGroups :=
                 { ops := s.pending
                   cursor_before := s.pending_cursor.getD cursor_before
                   cursor_after := cursor_before } :: s.undoGroups }
    else s
  let s :=
    if s.pending.isEmpty then { s with pending_cursor := some cursor_before } else s
  { s with pending := s.pending ++ [op]
           context := ctx
           last_edit := some now
           redoGroups := [] }

/-- `UndoStack::finish_group`. -/
def UndoStack.finishGroup (s : UndoStack) (cursor_after : CursorState) : UndoStack :=
  if s.pending.isEmpty then s
  else
    { s with pending := []
             pending_cursor := none
             undoGroups :=
               { ops := s.pending
                 cursor_before := s.pending_cursor.getD cursor_after
                 cursor_after := cursor_after } :: s.undoGroups }

/-- `UndoStack::undo`: finish the pending group, pop the newest group,
apply the inverses of its operations in reverse recorded order, move the
group to the redo stack, and report its `cursor_before`. -/
def UndoStack.undo (s : UndoStack) (b : Buffer) (current_cursor : CursorState) :
    UndoStack × Buffer × Option CursorState :=
  let s := s.finishGroup current_cursor
  match s.undoGroups with
  | [] => (s, b, none)
  | g :: rest =>
    let b := g.ops.reverse.foldl (fun b op => op.invert.apply b) b
    ({ s with undoGroups := rest, redoGroups := g :: s.redoGroups },
     b, some g.cursor_before)

/-- `UndoStack::redo`. -/
def UndoStack.redo (s : UndoStack) (b : Buffer) :
    UndoStack × Buffer × Option CursorState :=
  match s.redoGroups with
  | [] => (s, b, none)
  | g :: rest =>
    let b := g.ops.foldl (fun b op => op.apply b) b
    ({ s with redoGroups := rest, undoGroups := g :: s.undoGroups },
     b, some g.cursor_after)

-- ---------------------------------------------------------------------------
-- Search and replace (src/editor.rs)
-- ---------------------------------------------------------------------------

/-- ASCII lowercase fold of one byte (embedding of `to_lowercase` on the
ASCII fragment; see the module comment). -/
def lowerByte (b : Nat) : Nat :=
  if 65 ≤ b ∧ b ≤ 90 then b + 32 else b

/-- Lowercase fold of a byte string. -/
def lowerBytes (t : List Nat) : List Nat := t.map lowerByte

/-- First index of `pat` inside `hay` (`str::find`). -/
def findSub (hay pat : List Nat) : Option Nat :=
  (List.range (hay.length + 1)).find? (fun i => decide ((hay.drop i).take pat.length = pat))

/-- Scan loop of `find_all_matches`: from `start`, while a whole pattern
still fits, find the next occurrence, report it and resume at its end.
The fuel only bounds the iteration count; `text.length + 1` steps always
suffice because every iteration advances `start` by at least one. -/
def findAllLoop (tl pl : List Nat) : Nat → Nat → List (Nat × Nat)
  | _, 0 => []
  | start, fuel + 1 =>
    if start + pl.length ≤ tl.length then
      match findSub (tl.drop start) pl with
      | some pos => (start + pos, start + pos + pl.length) ::
          findAllLoop tl pl (start + pos + pl.length) fuel
      | none => []
    else []

/-- `find_all_matches` from src/editor.rs. -/
def findAllMatches (text pat : List Nat) : List (Nat × Nat) :=
  if pat = [] then []
  else
    let tl := lowerBytes text
    let pl := lowerBytes pat
    findAllLoop tl pl 0 (tl.length + 1)

/-- `Editor::cursor_state`. -/
def cursorState (c : Cursor) : CursorState :=
  { line := c.line, col := c.col, desired_col := c.desired_col }

/-- `Editor::execute_replace_all`, restricted to the state it touches:
buffer, undo stack and cursor. Returns the new states and the number of
replacements reported ("Replaced n occurrences"; 0 models the "No
matches to replace" warning). -/
def executeReplaceAll (buf : Buffer) (stack : UndoStack) (cursor : Cursor)
    (pat replacement : List Nat) (now : Nat) : Buffer × UndoStack × Cursor × Nat :=
  let text := buf.textBytes
  let ms := findAllMatches text pat
  if ms = [] then (buf, stack, cursor, 0)
  else
    let count := ms.length
    let step := fun (acc : Buffer × UndoStack) (m : Nat × Nat) =>
      let b := acc.1
      let st := acc.2
      let before := cursorState cursor
      let deleted := b.slice m.1 m.2
      let b := (b.delete m.1 (m.2 - m.1)).1
      let st := st.record (.Delete m.1 deleted) before .Other now
      let before2 := cursorState cursor
      let b := b.insert m.1 replacement
      let st := st.record (.Insert m.1 replacement) before2 .Other now
      (b, st)
    let bs := ms.reverse.foldl step (buf, stack)
    (bs.1, bs.2, cursor.clamp bs.1, count)

-- ---------------------------------------------------------------------------
-- Derived definitions used by the theorems: operation effects on the
-- logical content, recorded-operation validity, the structural buffer
-- invariant, and the concrete buffers and scenarios of the witnesses
-- ---------------------------------------------------------------------------

/-- Effect of `Operation::apply` on the logical content alone (derived
below as a simulation of the buffer-level mutation). -/
def applyOpText (t : List Nat) : Operation → List Nat
  | .Insert pos s => t.take (min pos t.length) ++ s ++ t.drop (min pos t.length)
  | .Delete pos s =>
    if s.length = 0 ∨ t.length ≤ pos then t
    else t.take pos ++ t.drop (pos + min s.length (t.length - pos))

/-- The operation was recorded from an actual mutation of content `t`:
an Insert position is at most the length, a Delete carries exactly the
bytes standing at its position. -/
def validOp (t : List Nat) : Operation → Bool
  | .Insert pos _ => decide (pos ≤ t.length)
  | .Delete pos s => decide ((t.drop pos).take s.length = s ∧ pos + s.length ≤ t.length)

/-- Sequential validity of a recorded operation list. -/
def validSeq (t : List Nat) : List Operation → Bool
  | [] => true
  | op :: ops => validOp t op && validSeq (applyOpText t op) ops

/-- Invariants the claim states for every buffer: logical length is the
array length minus the gap length (with the gap indices in bounds), and
the line-start index has count('\n') + 1 entries, starts with 0 and is
strictly increasing. -/
def BufferInv (b : Buffer) : Prop :=
  b.gap_start ≤ b.gap_end ∧ b.gap_end ≤ b.data.length ∧
  b.len + b.gapLen = b.data.length ∧
  b.lines.length = b.textBytes.count 10 + 1 ∧
  b.lines.head? = some 0 ∧
  List.Pairwise (fun a c => a < c) b.lines

instance (b : Buffer) : Decidable (BufferInv b) :=
  inferInstanceAs (Decidable (b.gap_start ≤ b.gap_end ∧ b.gap_end ≤ b.data.length ∧
    b.len + b.gapLen = b.data.length ∧
    b.lines.length = b.textBytes.count 10 + 1 ∧
    b.lines.head? = some 0 ∧
    List.Pairwise (fun a c => a < c) b.lines))

/-- Concrete buffer for the C1 witness: content "ab" with a four-byte gap. -/
def c1buf : Buffer :=
  { data := [97, 98, 0, 0, 0, 0], gap_start := 2, gap_end := 6,
    lines := [0], modified := false }

/-- Operations of the C1 witness: append "c", then delete "bc". -/
def c1ops : List Operation :=
  [Operation.Insert 2 [99], Operation.Delete 1 [98, 99]]

/-- Undo stack of the C1 witness: the two operations are pending. -/
def c1stack : UndoStack :=
  { undoGroups := [], redoGroups := [], pending := c1ops,
    pending_cursor := some ⟨0, 2, 2⟩, context := .Typing,
    last_edit := some 0, saved_at := some 0 }

/-- Empty buffer with an eight-byte gap, for the C3 witness. -/
def c3buf : Buffer :=
  { data := List.replicate 8 0, gap_start := 0, gap_end := 8,
    lines := [0], modified := false }

-- ---------------------------------------------------------------------------
-- C2: replace-all scenario
-- ---------------------------------------------------------------------------

/-- Buffer holding "foo foo foo" for the C2 scenario. -/
def c2buf : Buffer :=
  { data := strBytes ("foo foo foo"), gap_start := 11, gap_end := 11,
    lines := [0], modified := false }

/-- Result of `execute_replace_all` on "foo foo foo" with pattern "foo"
and replacement "bar", from a fresh undo stack. -/
def c2run : Buffer × UndoStack × Cursor × Nat :=
  executeReplaceAll c2buf UndoStack.new ⟨0, 0, 0⟩ (strBytes ("foo"))
    (strBytes ("bar")) 0

/-- One undo after the replace-all. -/
def c2undo1 : UndoStack × Buffer × Option CursorState :=
  c2run.2.1.undo c2run.1 (cursorState c2run.2.2.1)

/-- Two, four and six undos after the replace-all. -/
def c2undo2 : UndoStack × Buffer × Option CursorState :=
  c2undo1.1.undo c2undo1.2.1 (cursorState c2run.2.2.1)

def c2undo3 : UndoStack × Buffer × Option CursorState :=
  c2undo2.1.undo c2undo2.2.1 (cursorState c2run.2.2.1)

def c2undo4 : UndoStack × Buffer × Option CursorState :=
  c2undo3.1.undo c2undo3.2.1 (cursorState c2run.2.2.1)

def c2undo5 : UndoStack × Buffer × Option CursorState :=
  c2undo4.1.undo c2undo4.2.1 (cursorState c2run.2.2.1)

def c2undo6 : UndoStack × Buffer × Option CursorState :=
  c2undo5.1.undo c2undo5.2.1 (cursorState c2run.2.2.1)

/-- Buffer holding "hi" with no gap, for small witnesses. -/
def hiBuf : Buffer :=
  { data := [104, 105], gap_start := 2, gap_end := 2, lines := [0],
    modified := false }

/-- Buffer holding "hi" with a three-byte gap, for the insert witness. -/
def hiBufGap : Buffer :=
  { data := [104, 105, 0, 0, 0], gap_start := 2, gap_end := 5, lines := [0],
    modified := false }

/-- Buffer holding "    indented", for the C7 witness. -/
def indentBuf : Buffer :=
  { data := strBytes ("    indented"), gap_start := 12, gap_end := 12,
    lines := [0], modified := false }

/-- Buffer holding "hello", for the C8 counterexample. -/
def helloBuf : Buffer :=
  { data := strBytes ("hello"), gap_start := 5, gap_end := 5, lines := [0],
    modified := false }

/-- Buffer holding "hi" with the gap between the two bytes, for the C9
witness: relocating or growing the gap leaves every read unchanged. -/
def hiSplitBuf : Buffer :=
  { data := [104, 0, 0, 105], gap_start := 1, gap_end := 3, lines := [0],
    modified := false }

/-- Witness for C10: the buffer "a\nb" with its canonical line index. -/
def abBuf : Buffer :=
  { data := [97, 10, 98], gap_start := 3, gap_end := 3, lines := [0, 2],
    modified := false }

-- ---------------------------------------------------------------------------
-- Groundwork: writeSeg algebra
-- ---------------------------------------------------------------------------

theorem writeSeg_length (l seg : List Nat) (dst : Nat)
    (h : dst + seg.length ≤ l.length) :
    (writeSeg l dst seg).length = l.length := by
  simp [writeSeg]
  omega

theorem take_writeSeg_of_le (l seg : List Nat) (dst k : Nat)
    (hk : k ≤ dst) (hd : dst ≤ l.length) :
    (writeSeg l dst seg).take k = l.take k := by
  rw [writeSeg, List.append_assoc, List.take_append_eq_append_take,
    List.take_take, List.length_take_of_le hd]
  have h1 : min k dst = k := by omega
  have h2 : k - dst = 0 := by omega
  simp [h1, h2]

theorem drop_writeSeg_at (l seg : List Nat) (dst : Nat)
    (hd : dst ≤ l.length) :
    (writeSeg l dst seg).drop dst = seg ++ l.drop (dst + seg.length) := by
  rw [writeSeg, List.append_assoc, List.drop_append_eq_append_drop,
    List.length_take_of_le hd]
  rw [List.drop_eq_nil_of_le (le_of_eq (List.length_take_of_le hd))]
  simp

theorem take_writeSeg_full (l seg : List Nat) (dst : Nat)
    (hd : dst ≤ l.length) :
    (writeSeg l dst seg).take (dst + seg.length) = l.take dst ++ seg := by
  rw [writeSeg]
  exact List.take_left' (by rw [List.length_append, List.length_take_of_le hd])

theorem drop_writeSeg_ge (l seg : List Nat) (dst j : Nat)
    (hj : dst + seg.length ≤ j) (hd : dst ≤ l.length) :
    (writeSeg l dst seg).drop j = l.drop j := by
  rw [writeSeg, List.append_assoc, List.drop_append_eq_append_drop,
    List.length_take_of_le hd]
  rw [List.drop_eq_nil_of_le (by rw [List.length_take_of_le hd]; omega)]
  rw [List.drop_append_eq_append_drop]
  rw [List.drop_eq_nil_of_le (show seg.length ≤ j - dst by omega)]
  rw [List.drop_drop]
  simp only [List.nil_append]
  congr 1
  omega

-- ---------------------------------------------------------------------------
-- Groundwork: gap-buffer reads
-- ---------------------------------------------------------------------------

theorem Buffer.textBytes_length (b : Buffer) (h : b.Wf) :
    b.textBytes.length = b.len := by
  obtain ⟨h1, h2⟩ := h
  have hlen : b.len = b.data.length - (b.gap_end - b.gap_start) := rfl
  rw [Buffer.textBytes, List.length_append, List.length_drop, hlen,
    List.length_take_of_le (by omega)]
  omega

theorem Buffer.byteAt_eq (b : Buffer) (h : b.Wf) (i : Nat) :
    b.byteAt i = b.textBytes[i]? := by
  obtain ⟨h1, h2⟩ := h
  have hlen : b.len = b.data.length - (b.gap_end - b.gap_start) := rfl
  have hgl : b.gapLen = b.gap_end - b.gap_start := rfl
  have hlt : (b.data.take b.gap_start).length = b.gap_start :=
    List.length_take_of_le (by omega)
  by_cases hi : b.len ≤ i
  · rw [Buffer.byteAt, if_pos hi]
    exact (List.getElem?_eq_none
      (by rw [Buffer.textBytes_length b ⟨h1, h2⟩]; omega)).symm
  · push_neg at hi
    rw [Buffer.byteAt, if_neg (by omega)]
    rw [Buffer.textBytes, List.getElem?_append, hlt]
    by_cases hg : i < b.gap_start
    · rw [if_pos hg, Buffer.logicalToPhysical, if_pos hg]
      rw [List.getElem?_take, if_pos hg]
      rw [List.getD_eq_getElem?_getD,
        List.getElem?_eq_getElem (show i < b.data.length by omega)]
      simp
    · push_neg at hg
      rw [if_neg (by omega), Buffer.logicalToPhysical, if_neg (by omega)]
      rw [List.getElem?_drop, List.getD_eq_getElem?_getD]
      have hb : b.gap_end + (i - b.gap_start) = i + b.gapLen := by
        rw [hgl]; omega
      have hq : i + b.gapLen < b.data.length := by
        rw [hgl]; rw [hlen] at hi; omega
      rw [hb, List.getElem?_eq_getElem hq]
      simp

theorem Buffer.sliceRange_eq (b : Buffer) (h : b.Wf) (s m : Nat)
    (hm : s + m ≤ b.len) :
    (List.range' s m).filterMap (fun i => b.byteAt i) =
      (b.textBytes.drop s).take m := by
  induction m generalizing s with
  | zero => simp
  | succ m ih =>
    rw [List.range'_succ, List.filterMap_cons]
    have hs : s < b.textBytes.length := by rw [Buffer.textBytes_length b h]; omega
    rw [Buffer.byteAt_eq b h, List.getElem?_eq_getElem hs]
    rw [List.drop_eq_getElem_cons hs, List.take_succ_cons]
    rw [ih (s + 1) (by omega)]

-- ---------------------------------------------------------------------------
-- Groundwork: move_gap and ensure_gap preserve the logical content
-- ---------------------------------------------------------------------------

theorem Buffer.moveGap_eq (b : Buffer) (p : Nat) :
    b.moveGap p =
      (if min p b.len = b.gap_start then b
       else if min p b.len < b.gap_start then
        { b with data := writeSeg b.data (b.gap_end - (b.gap_start - min p b.len))
                   ((b.data.drop (min p b.len)).take (b.gap_start - min p b.len))
                 gap_start := min p b.len
                 gap_end := b.gap_end - (b.gap_start - min p b.len) }
       else
        { b with data := writeSeg b.data b.gap_start
                   ((b.data.drop b.gap_end).take (min p b.len - b.gap_start))
                 gap_start := min p b.len
                 gap_end := b.gap_end + (min p b.len - b.gap_start) }) := rfl

theorem Buffer.moveGap_spec (b : Buffer) (p : Nat) (h : b.Wf) :
    (b.moveGap p).Wf ∧ (b.moveGap p).textBytes = b.textBytes ∧
    (b.moveGap p).gap_start = min p b.len ∧
    (b.moveGap p).gapLen = b.gapLen ∧
    (b.moveGap p).len = b.len ∧
    (b.moveGap p).data.length = b.data.length ∧
    (b.moveGap p).lines = b.lines ∧
    (b.moveGap p).modified = b.modified := by
  obtain ⟨h1, h2⟩ := h
  have hlen : b.len = b.data.length - (b.gap_end - b.gap_start) := rfl
  have hgl : b.gapLen = b.gap_end - b.gap_start := rfl
  have hlen2 : ∀ b' : Buffer, b'.len = b'.data.length - (b'.gap_end - b'.gap_start) :=
    fun _ => rfl
  have hgl2 : ∀ b' : Buffer, b'.gapLen = b'.gap_end - b'.gap_start := fun _ => rfl
  rw [Buffer.moveGap_eq]
  have hq : min p b.len ≤ b.len := min_le_right p b.len
  set q := min p b.len with hqdef
  rw [hlen] at hq
  by_cases he : q = b.gap_start
  · rw [if_pos he]
    exact ⟨⟨h1, h2⟩, rfl, he.symm, rfl, rfl, rfl, rfl, rfl⟩
  · rw [if_neg he]
    by_cases hlt : q < b.gap_start
    · rw [if_pos hlt]
      set cnt := b.gap_start - q with hcnt
      set dst := b.gap_end - cnt with hdst
      have hseg : ((b.data.drop q).take cnt).length = cnt := by
        rw [List.length_take, List.length_drop]; omega
      have hdn : dst ≤ b.data.length := by omega
      have hqdst : q ≤ dst := by omega
      have hwl : dst + ((b.data.drop q).take cnt).length ≤ b.data.length := by
        rw [hseg]; omega
      have hlength : (writeSeg b.data dst ((b.data.drop q).take cnt)).length =
          b.data.length := writeSeg_length _ _ _ hwl
      refine ⟨⟨by simpa using hqdst, by simpa [hlength] using hdn⟩, ?_, rfl,
        by simp [hgl2]; omega, by simp [hlen2, hlength, hgl2]; omega,
        by simpa using hlength, rfl, rfl⟩
      show (writeSeg b.data dst ((b.data.drop q).take cnt)).take q ++
          (writeSeg b.data dst ((b.data.drop q).take cnt)).drop dst =
          b.data.take b.gap_start ++ b.data.drop b.gap_end
      rw [take_writeSeg_of_le _ _ _ _ hqdst hdn, drop_writeSeg_at _ _ _ hdn, hseg]
      have hdc : dst + cnt = b.gap_end := by omega
      rw [hdc, ← List.append_assoc, ← List.take_add]
      have hsum : q + cnt = b.gap_start := by omega
      rw [hsum]
    · push_neg at hlt
      rw [if_neg (by omega)]
      set cnt := q - b.gap_start with hcnt
      have hseg : ((b.data.drop b.gap_end).take cnt).length = cnt := by
        rw [List.length_take, List.length_drop]; omega
      have hwl : b.gap_start + ((b.data.drop b.gap_end).take cnt).length ≤
          b.data.length := by rw [hseg]; omega
      have hlength : (writeSeg b.data b.gap_start
          ((b.data.drop b.gap_end).take cnt)).length = b.data.length :=
        writeSeg_length _ _ _ hwl
      refine ⟨⟨by simp; omega, by simpa [hlength] using (by omega :
          b.gap_end + cnt ≤ b.data.length)⟩, ?_, rfl,
        by simp [hgl2]; omega, by simp [hlen2, hlength, hgl2]; omega,
        by simpa using hlength, rfl, rfl⟩
      show (writeSeg b.data b.gap_start ((b.data.drop b.gap_end).take cnt)).take q ++
          (writeSeg b.data b.gap_start ((b.data.drop b.gap_end).take cnt)).drop
            (b.gap_end + cnt) =
          b.data.take b.gap_start ++ b.data.drop b.gap_end
      have hq2 : q = b.gap_start + ((b.data.drop b.gap_end).take cnt).length := by
        rw [hseg]; omega
      rw [hq2, take_writeSeg_full _ _ _ (by omega),
        drop_writeSeg_ge _ _ _ _ (by rw [hseg]; omega) (by omega)]
      rw [List.append_assoc]
      congr 1
      rw [← List.drop_drop, List.take_append_drop]

theorem Buffer.ensureGap_eq (b : Buffer) (k : Nat) :
    b.ensureGap k =
      (if k ≤ b.gapLen then b
       else if 0 < b.data.length - b.gap_end then
        { b with data := writeSeg (b.data ++ List.replicate (max INITIAL_GAP (max (b.len / 4) k)) 0) ((b.data ++ List.replicate (max INITIAL_GAP (max (b.len / 4) k)) 0).length - (b.data.length - b.gap_end)) (((b.data ++ List.replicate (max INITIAL_GAP (max (b.len / 4) k)) 0).drop b.gap_end).take (b.data.length - b.gap_end))
                 gap_end := (b.data ++ List.replicate (max INITIAL_GAP (max (b.len / 4) k)) 0).length - (b.data.length - b.gap_end) }
       else
        { b with data := b.data ++ List.replicate (max INITIAL_GAP (max (b.len / 4) k)) 0
                 gap_end := (b.data ++ List.replicate (max INITIAL_GAP (max (b.len / 4) k)) 0).length }) :=
  rfl

theorem Buffer.ensureGap_spec (b : Buffer) (k : Nat) (h : b.Wf) :
    (b.ensureGap k).Wf ∧ (b.ensureGap k).textBytes = b.textBytes ∧
    k ≤ (b.ensureGap k).gapLen ∧
    (b.ensureGap k).gap_start = b.gap_start ∧
    (b.ensureGap k).len = b.len ∧
    (b.ensureGap k).lines = b.lines ∧
    (b.ensureGap k).modified = b.modified := by
  obtain ⟨h1, h2⟩ := h
  have hgl : b.gapLen = b.gap_end - b.gap_start := rfl
  have hlen : b.len = b.data.length - (b.gap_end - b.gap_start) := rfl
  rw [Buffer.ensureGap_eq]
  by_cases hsm : k ≤ b.gapLen
  · rw [if_pos hsm]
    exact ⟨⟨h1, h2⟩, rfl, hsm, rfl, rfl, rfl, rfl⟩
  · rw [if_neg hsm]
    push_neg at hsm
    rw [hgl] at hsm
    set G := max INITIAL_GAP (max (b.len / 4) k) with hG
    have hGk : k ≤ G := le_trans (le_max_right _ k) (le_max_right INITIAL_GAP _)
    set D1 := b.data ++ List.replicate G 0 with hD1
    have hD1len : D1.length = b.data.length + G := by rw [hD1]; simp
    by_cases hag : 0 < b.data.length - b.gap_end
    · rw [if_pos hag]
      have hsegeq : (D1.drop b.gap_end).take (b.data.length - b.gap_end) =
          b.data.drop b.gap_end := by
        rw [hD1, List.drop_append_eq_append_drop]
        rw [Nat.sub_eq_zero_of_le h2, List.drop_zero]
        exact List.take_left' (by rw [List.length_drop])
      have hseglen : ((D1.drop b.gap_end).take (b.data.length - b.gap_end)).length =
          b.data.length - b.gap_end := by rw [hsegeq, List.length_drop]
      have hNAS : D1.length - (b.data.length - b.gap_end) = b.gap_end + G := by
        rw [hD1len]; omega
      have hwl : D1.length - (b.data.length - b.gap_end) +
          ((D1.drop b.gap_end).take (b.data.length - b.gap_end)).length ≤ D1.length := by
        rw [hseglen, hNAS, hD1len]; omega
      have hlength : (writeSeg D1 (D1.length - (b.data.length - b.gap_end))
          ((D1.drop b.gap_end).take (b.data.length - b.gap_end))).length = D1.length :=
        writeSeg_length _ _ _ hwl
      refine ⟨⟨?_, ?_⟩, ?_, ?_, rfl, ?_, rfl, rfl⟩
      · show b.gap_start ≤ D1.length - (b.data.length - b.gap_end)
        rw [hNAS]; omega
      · show D1.length - (b.data.length - b.gap_end) ≤
          (writeSeg D1 (D1.length - (b.data.length - b.gap_end))
            ((D1.drop b.gap_end).take (b.data.length - b.gap_end))).length
        rw [hlength, hNAS, hD1len]; omega
      · show (writeSeg D1 (D1.length - (b.data.length - b.gap_end))
            ((D1.drop b.gap_end).take (b.data.length - b.gap_end))).take b.gap_start ++
          (writeSeg D1 (D1.length - (b.data.length - b.gap_end))
            ((D1.drop b.gap_end).take (b.data.length - b.gap_end))).drop
              (D1.length - (b.data.length - b.gap_end)) =
          b.data.take b.gap_start ++ b.data.drop b.gap_end
        rw [take_writeSeg_of_le _ _ _ _ (by rw [hNAS]; omega) (by rw [hNAS, hD1len]; omega)]
        rw [drop_writeSeg_at _ _ _ (by rw [hNAS, hD1len]; omega)]
        rw [hseglen, hNAS]
        have hdropnil : D1.drop (b.gap_end + G + (b.data.length - b.gap_end)) = [] :=
          List.drop_eq_nil_of_le (by rw [hD1len]; omega)
        rw [hdropnil, hsegeq, List.append_nil]
        congr 1
        rw [hD1, List.take_append_eq_append_take, Nat.sub_eq_zero_of_le (by omega),
          List.take_zero, List.append_nil]
      · show k ≤ D1.length - (b.data.length - b.gap_end) - b.gap_start
        rw [hNAS]; omega
      · show (writeSeg D1 (D1.length - (b.data.length - b.gap_end))
            ((D1.drop b.gap_end).take (b.data.length - b.gap_end))).length -
          (D1.length - (b.data.length - b.gap_end) - b.gap_start) = b.len
        rw [hlength, hNAS, hD1len, hlen]; omega
    · rw [if_neg hag]
      push_neg at hag
      have hge : b.gap_end = b.data.length := by omega
      refine ⟨⟨?_, le_refl _⟩, ?_, ?_, rfl, ?_, rfl, rfl⟩
      · show b.gap_start ≤ D1.length
        rw [hD1len]; omega
      · show D1.take b.gap_start ++ D1.drop D1.length =
          b.data.take b.gap_start ++ b.data.drop b.gap_end
        rw [List.drop_eq_nil_of_le (le_refl D1.length), hge,
          List.drop_eq_nil_of_le (le_refl b.data.length)]
        rw [hD1, List.take_append_eq_append_take, Nat.sub_eq_zero_of_le (by omega),
          List.take_zero, List.append_nil]
      · show k ≤ D1.length - b.gap_start
        rw [hD1len]; omega
      · show D1.length - (D1.length - b.gap_start) = b.len
        rw [hD1len, hlen]; omega

-- ---------------------------------------------------------------------------
-- Groundwork: rebuild_lines, insert and delete
-- ---------------------------------------------------------------------------

theorem Buffer.rebuildLines_lines (b : Buffer) (h : b.Wf) :
    b.rebuildLines.lines = lineStartsOf b.textBytes := by
  show 0 :: (List.range b.len).filterMap
      (fun i => if b.byteAt i = some 10 then some (i + 1) else none) =
    lineStartsOf b.textBytes
  rw [lineStartsOf]
  congr 1
  rw [← Buffer.textBytes_length b h]
  congr 1
  funext i
  rw [Buffer.byteAt_eq b h]

theorem Buffer.insert_spec (b : Buffer) (p : Nat) (t : List Nat) (h : b.Wf) :
    (b.insert p t).Wf ∧
    (b.insert p t).textBytes =
      b.textBytes.take (min p b.len) ++ t ++ b.textBytes.drop (min p b.len) ∧
    (b.insert p t).lines = lineStartsOf ((b.insert p t).textBytes) ∧
    (b.insert p t).modified = true ∧
    (b.insert p t).len = b.len + t.length := by
  set q := min p b.len with hq
  have hqb : q ≤ b.len := min_le_right p b.len
  obtain ⟨hw1, ht1, hk1, _, hl1, _, _⟩ := Buffer.ensureGap_spec b t.length h
  set b1 := b.ensureGap t.length with hb1
  obtain ⟨hw2, ht2, hgs2, hgl2, hl2, _, _, _⟩ := Buffer.moveGap_spec b1 q hw1
  obtain ⟨hw2a, hw2b⟩ := hw2
  set b2 := b1.moveGap q with hb2
  have hgs2' : b2.gap_start = q := by
    rw [hgs2, hl1]
    exact min_eq_left hqb
  have hglen2 : t.length ≤ b2.gapLen := by rw [hgl2]; exact hk1
  have hgl2' : b2.gapLen = b2.gap_end - b2.gap_start := rfl
  have hlen2 : b2.len = b2.data.length - (b2.gap_end - b2.gap_start) := rfl
  set b3 : Buffer := { b2 with data := writeSeg b2.data b2.gap_start t
                               gap_start := b2.gap_start + t.length
                               modified := true } with hb3
  have hins : b.insert p t = b3.rebuildLines := rfl
  have hbound : b2.gap_start + t.length ≤ b2.gap_end := by
    rw [hgl2'] at hglen2; omega
  have hlength : b3.data.length = b2.data.length := by
    rw [hb3]
    exact writeSeg_length _ _ _ (by omega)
  have hw3 : b3.Wf := by
    refine ⟨by show b2.gap_start + t.length ≤ b2.gap_end; omega, ?_⟩
    show b2.gap_end ≤ b3.data.length
    rw [hlength]; omega
  have htext3 : b3.textBytes =
      b.textBytes.take q ++ t ++ b.textBytes.drop q := by
    show (writeSeg b2.data b2.gap_start t).take (b2.gap_start + t.length) ++
        (writeSeg b2.data b2.gap_start t).drop b2.gap_end =
      b.textBytes.take q ++ t ++ b.textBytes.drop q
    rw [take_writeSeg_full _ _ _ (by omega),
      drop_writeSeg_ge _ _ _ _ hbound (by omega)]
    have hx : b2.textBytes = b2.data.take b2.gap_start ++ b2.data.drop b2.gap_end := rfl
    have hxl : (b2.data.take b2.gap_start).length = q := by
      rw [List.length_take_of_le (by omega), hgs2']
    rw [← ht1, ← ht2, hx, List.take_left' hxl, List.drop_left' hxl,
      List.append_assoc]
  have hrb : b3.rebuildLines.textBytes = b3.textBytes := rfl
  refine ⟨hw3, ?_, ?_, rfl, ?_⟩
  · rw [hins, hrb, htext3]
  · rw [hins, hrb]
    exact Buffer.rebuildLines_lines b3 hw3
  · rw [hins]
    show b3.data.length - (b2.gap_end - (b2.gap_start + t.length)) = b.len + t.length
    rw [hlength]
    rw [hlen2] at hl2
    rw [hl1] at hl2
    omega

theorem Buffer.delete_eq (b : Buffer) (p k : Nat) :
    b.delete p k =
      if k = 0 ∨ b.len ≤ p then (b, [])
      else
        (({ (b.moveGap p) with
              gap_end := (b.moveGap p).gap_end + min k (b.len - p)
              modified := true }).rebuildLines,
         (List.range' p (min k (b.len - p))).filterMap (fun i => b.byteAt i)) := rfl

theorem Buffer.delete_spec (b : Buffer) (p k : Nat) (h : b.Wf) (hp : p < b.len)
    (hk : 0 < k) :
    (b.delete p k).1.Wf ∧
    (b.delete p k).2 = (b.textBytes.drop p).take (min k (b.len - p)) ∧
    (b.delete p k).1.textBytes =
      b.textBytes.take p ++ b.textBytes.drop (p + min k (b.len - p)) ∧
    (b.delete p k).1.lines = lineStartsOf ((b.delete p k).1.textBytes) ∧
    (b.delete p k).1.modified = true ∧
    (b.delete p k).1.len = b.len - min k (b.len - p) := by
  have hcond : ¬(k = 0 ∨ b.len ≤ p) := by push_neg; exact ⟨by omega, by omega⟩
  rw [Buffer.delete_eq, if_neg hcond]
  set kk := min k (b.len - p) with hkk
  have hkkb : kk ≤ b.len - p := min_le_right _ _
  obtain ⟨hw2, ht2, hgs2, hgl2, hl2, _, _, _⟩ := Buffer.moveGap_spec b p h
  obtain ⟨hw2a, hw2b⟩ := hw2
  set b2 := b.moveGap p with hb2
  have hgs2' : b2.gap_start = p := by
    rw [hgs2]
    exact min_eq_left (by omega)
  have hgl2' : b2.gapLen = b2.gap_end - b2.gap_start := rfl
  have hlen2 : b2.len = b2.data.length - (b2.gap_end - b2.gap_start) := rfl
  have hroom : b2.gap_end + kk ≤ b2.data.length := by
    rw [hlen2] at hl2; omega
  set b4 : Buffer := { b2 with gap_end := b2.gap_end + kk, modified := true } with hb4
  have hw4 : b4.Wf := by
    refine ⟨by show b2.gap_start ≤ b2.gap_end + kk; omega, ?_⟩
    show b2.gap_end + kk ≤ b2.data.length
    exact hroom
  have htext4 : b4.textBytes =
      b.textBytes.take p ++ b.textBytes.drop (p + kk) := by
    show b2.data.take b2.gap_start ++ b2.data.drop (b2.gap_end + kk) =
      b.textBytes.take p ++ b.textBytes.drop (p + kk)
    have hx : b2.textBytes = b2.data.take b2.gap_start ++ b2.data.drop b2.gap_end := rfl
    have hxl : (b2.data.take b2.gap_start).length = p := by
      rw [List.length_take_of_le (by omega), hgs2']
    rw [← ht2, hx, List.take_left' hxl]
    have hd : List.drop (p + kk) (b2.data.take b2.gap_start ++ b2.data.drop b2.gap_end) =
        List.drop kk (b2.data.drop b2.gap_end) := by
      rw [List.drop_append_eq_append_drop, hxl,
        List.drop_eq_nil_of_le (by rw [hxl]; omega)]
      simp
    rw [hd, List.drop_drop]
  have hrb : b4.rebuildLines.textBytes = b4.textBytes := rfl
  refine ⟨hw4, ?_, ?_, ?_, rfl, ?_⟩
  · exact Buffer.sliceRange_eq b h p kk (by omega)
  · rw [hrb, htext4]
  · rw [hrb]
    exact Buffer.rebuildLines_lines b4 hw4
  · show b4.data.length - (b2.gap_end + kk - b2.gap_start) = b.len - kk
    show b2.data.length - (b2.gap_end + kk - b2.gap_start) = b.len - kk
    rw [hlen2] at hl2
    omega

-- ---------------------------------------------------------------------------
-- Groundwork: properties of the line-start index
-- ---------------------------------------------------------------------------

theorem newlineIdx_length (t : List Nat) (g : Nat → Nat) :
    ((List.range t.length).filterMap
      (fun i => if t[i]? = some 10 then some (g i) else none)).length = t.count 10 := by
  induction t generalizing g with
  | nil => simp
  | cons a s ih =>
    set F := (fun i => if (a :: s)[i]? = some 10 then some (g i) else none) with hF
    rw [List.length_cons, List.range_succ_eq_map]
    have hcomp : F ∘ Nat.succ =
        (fun j => if s[j]? = some 10 then some (g (j + 1)) else none) := by
      funext j
      rw [hF]
      simp [Function.comp]
    by_cases ha : a = 10
    · have hF0 : F 0 = some (g 0) := by rw [hF]; simp [ha]
      rw [List.filterMap_cons_some hF0, List.length_cons, List.filterMap_map,
        hcomp, ih (fun j => g (j + 1)), List.count_cons]
      simp [ha]
    · have hF0 : F 0 = none := by rw [hF]; simp [ha]
      rw [List.filterMap_cons_none hF0, List.filterMap_map,
        hcomp, ih (fun j => g (j + 1)), List.count_cons]
      simp [ha]

theorem newlineIdx_sorted (t : List Nat) :
    List.Pairwise (· < ·) ((List.range t.length).filterMap
      (fun i => if t[i]? = some 10 then some (i + 1) else none)) := by
  refine List.Pairwise.filterMap _ ?_ (List.pairwise_lt_range t.length)
  intro a a' hlt x hx y hy
  by_cases h1 : t[a]? = some 10
  · rw [if_pos h1] at hx
    by_cases h2 : t[a']? = some 10
    · rw [if_pos h2] at hy
      simp only [Option.mem_def, Option.some_inj] at hx hy
      omega
    · rw [if_neg h2] at hy
      simp at hy
  · rw [if_neg h1] at hx
    simp at hx

theorem lineStartsOf_spec (t : List Nat) :
    (lineStartsOf t).length = t.count 10 + 1 ∧
    (lineStartsOf t).head? = some 0 ∧
    List.Chain' (· < ·) (lineStartsOf t) := by
  refine ⟨?_, rfl, ?_⟩
  · rw [lineStartsOf, List.length_cons, newlineIdx_length t (fun i => i + 1)]
  · apply List.Pairwise.chain'
    rw [lineStartsOf]
    refine List.pairwise_cons.mpr ⟨?_, newlineIdx_sorted t⟩
    intro x hx
    rw [List.mem_filterMap] at hx
    obtain ⟨a, _, hfa⟩ := hx
    by_cases h1 : t[a]? = some 10
    · rw [if_pos h1] at hfa
      have : a + 1 = x := Option.some_inj.mp hfa
      omega
    · rw [if_neg h1] at hfa
      exact absurd hfa (by simp)

-- ---------------------------------------------------------------------------
-- Groundwork: operations on the logical content and the round trip
-- ---------------------------------------------------------------------------


theorem Operation.apply_sim (op : Operation) (b : Buffer) (h : b.Wf) :
    (op.apply b).Wf ∧ (op.apply b).textBytes = applyOpText b.textBytes op := by
  cases op with
  | Insert pos s =>
    obtain ⟨hw, ht, _, _, _⟩ := Buffer.insert_spec b pos s h
    refine ⟨hw, ?_⟩
    show (b.insert pos s).textBytes = applyOpText b.textBytes (.Insert pos s)
    rw [ht]
    simp only [applyOpText]
    rw [Buffer.textBytes_length b h]
  | Delete pos s =>
    by_cases hc : s.length = 0 ∨ b.len ≤ pos
    · have hdel : b.delete pos s.length = (b, []) := by
        rw [Buffer.delete_eq, if_pos hc]
      have happ : Operation.apply (.Delete pos s) b = b := by
        show (b.delete pos s.length).1 = b
        rw [hdel]
      rw [happ]
      refine ⟨h, ?_⟩
      simp only [applyOpText]
      rw [if_pos (by rw [Buffer.textBytes_length b h]; exact hc)]
    · push_neg at hc
      obtain ⟨hs0, hpos⟩ := hc
      obtain ⟨hw, _, ht, _, _, _⟩ :=
        Buffer.delete_spec b pos s.length h (by omega) (by omega)
      refine ⟨hw, ?_⟩
      show (b.delete pos s.length).1.textBytes = applyOpText b.textBytes (.Delete pos s)
      rw [ht]
      simp only [applyOpText]
      rw [if_neg (by push_neg
                     rw [Buffer.textBytes_length b h]
                     exact ⟨hs0, by omega⟩)]
      rw [Buffer.textBytes_length b h]

theorem applyOpText_invert (t : List Nat) (op : Operation)
    (hv : validOp t op = true) :
    applyOpText (applyOpText t op) op.invert = t := by
  cases op with
  | Insert pos s =>
    simp only [validOp, decide_eq_true_eq] at hv
    have hmin : min pos t.length = pos := min_eq_left hv
    simp only [applyOpText, Operation.invert, hmin]
    by_cases hs : s.length = 0
    · have hsl : s = [] := List.length_eq_zero.mp hs
      subst hsl
      rw [if_pos (Or.inl List.length_nil)]
      simp
    · have htl : (t.take pos).length = pos := List.length_take_of_le hv
      have hlen' : ((t.take pos ++ s) ++ t.drop pos).length = t.length + s.length := by
        simp
        omega
      rw [if_neg (by push_neg; exact ⟨hs, by omega⟩)]
      have hm2 : min s.length (((t.take pos ++ s) ++ t.drop pos).length - pos) =
          s.length := min_eq_left (by omega)
      rw [hm2]
      have h1 : ((t.take pos ++ s) ++ t.drop pos).take pos = t.take pos := by
        rw [List.append_assoc]
        exact List.take_left' htl
      have h2 : ((t.take pos ++ s) ++ t.drop pos).drop (pos + s.length) = t.drop pos :=
        List.drop_left' (by rw [List.length_append, htl])
      rw [h1, h2, List.take_append_drop]
  | Delete pos s =>
    simp only [validOp, decide_eq_true_eq] at hv
    obtain ⟨hs, hps⟩ := hv
    by_cases hzero : s.length = 0
    · have hsl : s = [] := List.length_eq_zero.mp hzero
      subst hsl
      simp only [applyOpText, Operation.invert]
      rw [if_pos (Or.inl List.length_nil)]
      simp
    · simp only [applyOpText, Operation.invert]
      rw [if_neg (by push_neg; exact ⟨hzero, by omega⟩)]
      have hm : min s.length (t.length - pos) = s.length := min_eq_left (by omega)
      rw [hm]
      have htl : (t.take pos).length = pos := List.length_take_of_le (by omega)
      have hlen'' : (t.take pos ++ t.drop (pos + s.length)).length =
          t.length - s.length := by
        simp
        omega
      have hminp : min pos (t.take pos ++ t.drop (pos + s.length)).length = pos :=
        min_eq_left (by rw [hlen'']; omega)
      rw [hminp, List.take_left' htl, List.drop_left' htl]
      have hdd : t.drop (pos + s.length) = (t.drop pos).drop s.length := by
        rw [List.drop_drop]
      rw [hdd, List.append_assoc]
      nth_rewrite 1 [← hs]
      rw [List.take_append_drop, List.take_append_drop]

theorem validSeq_roundTrip (ops : List Operation) (t : List Nat)
    (hv : validSeq t ops = true) :
    ops.reverse.foldl (fun a op => applyOpText a op.invert)
      (ops.foldl applyOpText t) = t := by
  induction ops generalizing t with
  | nil => simp
  | cons op rest ih =>
    rw [validSeq, Bool.and_eq_true] at hv
    obtain ⟨h1, h2⟩ := hv
    rw [List.reverse_cons, List.foldl_append, List.foldl_cons, List.foldl_nil,
      List.foldl_cons]
    rw [ih (applyOpText t op) h2]
    exact applyOpText_invert t op h1

theorem foldl_apply_sim (ops : List Operation) (b : Buffer) (h : b.Wf) :
    (ops.foldl (fun b op => op.apply b) b).Wf ∧
    (ops.foldl (fun b op => op.apply b) b).textBytes =
      ops.foldl applyOpText b.textBytes := by
  induction ops generalizing b with
  | nil => exact ⟨h, rfl⟩
  | cons op rest ih =>
    obtain ⟨hw, ht⟩ := Operation.apply_sim op b h
    obtain ⟨hw2, ht2⟩ := ih (op.apply b) hw
    exact ⟨hw2, by rw [List.foldl_cons, List.foldl_cons, ht2, ht]⟩

theorem foldl_invertApply_sim (ops : List Operation) (b : Buffer) (h : b.Wf) :
    (ops.foldl (fun b op => op.invert.apply b) b).Wf ∧
    (ops.foldl (fun b op => op.invert.apply b) b).textBytes =
      ops.foldl (fun a op => applyOpText a op.invert) b.textBytes := by
  induction ops generalizing b with
  | nil => exact ⟨h, rfl⟩
  | cons op rest ih =>
    obtain ⟨hw, ht⟩ := Operation.apply_sim op.invert b h
    obtain ⟨hw2, ht2⟩ := ih (op.invert.apply b) hw
    exact ⟨hw2, by rw [List.foldl_cons, List.foldl_cons, ht2, ht]⟩

-- ---------------------------------------------------------------------------
-- Groundwork: undo-stack behaviour
-- ---------------------------------------------------------------------------

theorem UndoStack.record_pending_empty (s : UndoStack) (op : Operation)
    (cb : CursorState) (ctx : GroupContext) (now : Nat) (hp : s.pending = []) :
    s.record op cb ctx now =
      { s with pending := [op], pending_cursor := some cb, context := ctx,
               last_edit := some now, redoGroups := [] } := by
  obtain ⟨ug, rg, pd, pc, cx, le, sv⟩ := s
  have hp' : pd = [] := hp
  subst hp'
  rfl

theorem UndoStack.record_split_pending (s : UndoStack) (op : Operation)
    (cb : CursorState) (ctx : GroupContext) (now : Nat) (hp : s.pending ≠ [])
    (hctx : ctx = .Paste ∨ ctx = .Cut ∨ ctx = .Other ∨ ctx ≠ s.context) :
    s.record op cb ctx now =
      { s with pending := [op]
               pending_cursor := some cb
               undoGroups :=
                 { ops := s.pending
                   cursor_before := s.pending_cursor.getD cb
                   cursor_after := cb } :: s.undoGroups
               context := ctx
               last_edit := some now
               redoGroups := [] } := by
  obtain ⟨ug, rg, pd, pc, cx, le, sv⟩ := s
  have hp' : pd ≠ [] := hp
  have hctx' : ctx = .Paste ∨ ctx = .Cut ∨ ctx = .Other ∨ ctx ≠ cx := hctx
  cases pd with
  | nil => exact absurd rfl hp'
  | cons a l =>
    have hsplit : ((a :: l).isEmpty
        || !(ctx == cx)
        || (ctx == GroupContext.Paste)
        || (ctx == GroupContext.Cut)
        || (ctx == GroupContext.Other)
        || timeoutElapsed le now) = true := by
      rcases hctx' with h | h | h | h
      · subst h; simp
      · subst h; simp
      · subst h; simp
      · have hb : (ctx == cx) = false := beq_eq_false_iff_ne.mpr h
        simp [hb]
    simp only [UndoStack.record, hsplit]
    simp

theorem UndoStack.record_coalesce (s : UndoStack) (op : Operation)
    (cb : CursorState) (now tl : Nat) (hp : s.pending ≠ [])
    (hctx : s.context = .Typing) (hle : s.last_edit = some tl)
    (ht : now - tl < GROUP_TIMEOUT_MS) :
    s.record op cb .Typing now =
      { s with pending := s.pending ++ [op], context := .Typing,
               last_edit := some now, redoGroups := [] } := by
  obtain ⟨ug, rg, pd, pc, cx, le, sv⟩ := s
  have hp' : pd ≠ [] := hp
  have hctx' : cx = .Typing := hctx
  have hle' : le = some tl := hle
  subst hctx'
  subst hle'
  cases pd with
  | nil => exact absurd rfl hp'
  | cons a l =>
    have htime : timeoutElapsed (some tl) now = false := by
      simp only [timeoutElapsed]
      exact decide_eq_false (by omega)
    simp only [UndoStack.record, htime]
    simp

theorem UndoStack.undo_pending_spec (s : UndoStack) (b0 : Buffer)
    (cur : CursorState) (ops : List Operation)
    (hw : b0.Wf) (hv : validSeq b0.textBytes ops = true)
    (hpend : s.pending = ops) (hne : ops ≠ []) :
    (s.undo (ops.foldl (fun b op => op.apply b) b0) cur).2.2 =
      some (s.pending_cursor.getD cur) ∧
    (s.undo (ops.foldl (fun b op => op.apply b) b0) cur).2.1.textBytes =
      b0.textBytes ∧
    (s.undo (ops.foldl (fun b op => op.apply b) b0) cur).2.1.Wf ∧
    (s.undo (ops.foldl (fun b op => op.apply b) b0) cur).1.undoGroups =
      s.undoGroups ∧
    (s.undo (ops.foldl (fun b op => op.apply b) b0) cur).1.redoGroups =
      { ops := ops, cursor_before := s.pending_cursor.getD cur,
        cursor_after := cur } :: s.redoGroups := by
  obtain ⟨ug, rg, pd, pc, cx, le, sv⟩ := s
  have hp' : pd = ops := hpend
  subst hp'
  have hie : pd.isEmpty = false := by
    cases pd with
    | nil => exact absurd rfl hne
    | cons a l => rfl
  obtain ⟨hw1, ht1⟩ := foldl_apply_sim pd b0 hw
  obtain ⟨hw2, ht2⟩ := foldl_invertApply_sim pd.reverse
    (pd.foldl (fun b op => op.apply b) b0) hw1
  simp only [UndoStack.undo, UndoStack.finishGroup, hie, Bool.false_eq_true,
    if_false]
  refine ⟨by trivial, ?_, hw2, by trivial, by trivial⟩
  rw [ht2, ht1]
  exact validSeq_roundTrip pd b0.textBytes hv

-- ---------------------------------------------------------------------------
-- Groundwork: search scan
-- ---------------------------------------------------------------------------

theorem lowerBytes_length (t : List Nat) : (lowerBytes t).length = t.length := by
  simp [lowerBytes]

theorem findSub_some (hay pat : List Nat) (i : Nat)
    (h : findSub hay pat = some i) :
    (hay.drop i).take pat.length = pat ∧ i + pat.length ≤ hay.length := by
  have hp := List.find?_some h
  have hm := List.mem_of_find?_eq_some h
  rw [List.mem_range] at hm
  have hp' : (hay.drop i).take pat.length = pat := of_decide_eq_true hp
  refine ⟨hp', ?_⟩
  have hl : ((hay.drop i).take pat.length).length = pat.length := by rw [hp']
  rw [List.length_take, List.length_drop] at hl
  omega

theorem findAllLoop_bounds (tl pl : List Nat) :
    ∀ fuel start, ∀ r ∈ findAllLoop tl pl start fuel,
      start ≤ r.1 ∧ r.2 = r.1 + pl.length ∧ r.2 ≤ tl.length := by
  intro fuel
  induction fuel with
  | zero =>
    intro start r hr
    simp [findAllLoop] at hr
  | succ f ih =>
    intro start r hr
    rw [findAllLoop] at hr
    by_cases hg : start + pl.length ≤ tl.length
    · rw [if_pos hg] at hr
      cases hf : findSub (tl.drop start) pl with
      | none =>
        rw [hf] at hr
        simp at hr
      | some pos =>
        rw [hf] at hr
        obtain ⟨hpre, hbound⟩ := findSub_some _ _ _ hf
        rw [List.length_drop] at hbound
        rcases List.mem_cons.mp hr with h | h
        · subst h
          exact ⟨by omega, rfl, by omega⟩
        · obtain ⟨h1, h2, h3⟩ := ih (start + pos + pl.length) r h
          exact ⟨by omega, h2, h3⟩
    · rw [if_neg hg] at hr
      simp at hr

theorem findAllLoop_pairwise (tl pl : List Nat) (hpl : pl ≠ []) :
    ∀ fuel start, List.Pairwise (fun x y => x.2 ≤ y.1 ∧ x.1 < y.1)
      (findAllLoop tl pl start fuel) := by
  have hpl0 : 0 < pl.length := List.length_pos.mpr hpl
  intro fuel
  induction fuel with
  | zero =>
    intro start
    simp [findAllLoop]
  | succ f ih =>
    intro start
    rw [findAllLoop]
    by_cases hg : start + pl.length ≤ tl.length
    · rw [if_pos hg]
      cases hf : findSub (tl.drop start) pl with
      | none => simp
      | some pos =>
        refine List.pairwise_cons.mpr ⟨?_, ih (start + pos + pl.length)⟩
        intro y hy
        have hb := (findAllLoop_bounds tl pl f _ y hy).1
        exact ⟨by omega, by omega⟩
    · rw [if_neg hg]
      simp

-- ---------------------------------------------------------------------------
-- Claim theorems
-- ---------------------------------------------------------------------------

/-- C1: for a Group recorded from actual buffer mutations (every Insert
position at most the length at apply time, every Delete text equal to the
content at its position), replaying the operations forward and then each
inverse in reverse recorded order is the identity on buffer content, and
`UndoStack.undo` after such a sequence of `record` calls (the recorded
operations are the pending group) restores the buffer text to its state
before the group and returns the group's `cursor_before`. -/
theorem undo_of_recorded_group_restores (s : UndoStack) (b0 : Buffer)
    (cur cb : CursorState) (ops : List Operation)
    (hw : b0.Wf) (hv : validSeq b0.textBytes ops = true)
    (hpend : s.pending = ops) (hne : ops ≠ []) (hpc : s.pending_cursor = some cb) :
    ((ops.reverse.foldl (fun b op => op.invert.apply b)
        (ops.foldl (fun b op => op.apply b) b0)).textBytes = b0.textBytes) ∧
    (s.undo (ops.foldl (fun b op => op.apply b) b0) cur).2.1.textBytes =
      b0.textBytes ∧
    (s.undo (ops.foldl (fun b op => op.apply b) b0) cur).2.2 = some cb := by
  obtain ⟨hc, ht, _, _, _⟩ := UndoStack.undo_pending_spec s b0 cur ops hw hv hpend hne
  refine ⟨?_, ht, by rw [hc, hpc]; rfl⟩
  obtain ⟨hw1, ht1⟩ := foldl_apply_sim ops b0 hw
  obtain ⟨hw2, ht2⟩ := foldl_invertApply_sim ops.reverse
    (ops.foldl (fun b op => op.apply b) b0) hw1
  rw [ht2, ht1]
  exact validSeq_roundTrip ops b0.textBytes hv


/-- Witness for C1 at a concrete recorded group. -/
theorem undo_of_recorded_group_restores_witness :
    ((c1ops.reverse.foldl (fun b op => op.invert.apply b)
        (c1ops.foldl (fun b op => op.apply b) c1buf)).textBytes =
      c1buf.textBytes) ∧
    (c1stack.undo (c1ops.foldl (fun b op => op.apply b) c1buf)
        ⟨0, 1, 1⟩).2.1.textBytes = c1buf.textBytes ∧
    (c1stack.undo (c1ops.foldl (fun b op => op.apply b) c1buf)
        ⟨0, 1, 1⟩).2.2 = some ⟨0, 2, 2⟩ :=
  undo_of_recorded_group_restores c1stack c1buf ⟨0, 1, 1⟩ ⟨0, 2, 2⟩ c1ops
    (by decide) (by decide) rfl (by decide) rfl

/-- C3: five sequential inserts recorded with the Typing context within
the 500 ms window accumulate into one pending group (no group is
committed), and a single undo removes all five, returning the first
operation's pre-edit cursor; an operation recorded with the Paste
context always starts its own group (its pending group is exactly that
operation, any previous pending operations committing as their own
group), and a typing record immediately after it commits the paste
group alone, regardless of the recording times. -/
theorem typing_coalesces_and_paste_is_atomic :
    (∀ (s0 : UndoStack) (b0 : Buffer)
       (p1 p2 p3 p4 p5 : Nat) (x1 x2 x3 x4 x5 : List Nat)
       (c1 c2 c3 c4 c5 cur : CursorState) (t1 t2 t3 t4 t5 : Nat),
      s0.pending = [] → b0.Wf →
      validSeq b0.textBytes
        [Operation.Insert p1 x1, Operation.Insert p2 x2, Operation.Insert p3 x3,
          Operation.Insert p4 x4, Operation.Insert p5 x5] = true →
      t2 - t1 < GROUP_TIMEOUT_MS → t3 - t2 < GROUP_TIMEOUT_MS →
      t4 - t3 < GROUP_TIMEOUT_MS → t5 - t4 < GROUP_TIMEOUT_MS →
      (((((s0.record (Operation.Insert p1 x1) c1 .Typing t1).record
          (Operation.Insert p2 x2) c2 .Typing t2).record
          (Operation.Insert p3 x3) c3 .Typing t3).record
          (Operation.Insert p4 x4) c4 .Typing t4).record
          (Operation.Insert p5 x5) c5 .Typing t5).pending =
        [Operation.Insert p1 x1, Operation.Insert p2 x2, Operation.Insert p3 x3,
          Operation.Insert p4 x4, Operation.Insert p5 x5] ∧
      (((((s0.record (Operation.Insert p1 x1) c1 .Typing t1).record
          (Operation.Insert p2 x2) c2 .Typing t2).record
          (Operation.Insert p3 x3) c3 .Typing t3).record
          (Operation.Insert p4 x4) c4 .Typing t4).record
          (Operation.Insert p5 x5) c5 .Typing t5).undoGroups = s0.undoGroups ∧
      ((((((s0.record (Operation.Insert p1 x1) c1 .Typing t1).record
          (Operation.Insert p2 x2) c2 .Typing t2).record
          (Operation.Insert p3 x3) c3 .Typing t3).record
          (Operation.Insert p4 x4) c4 .Typing t4).record
          (Operation.Insert p5 x5) c5 .Typing t5).undo
        ([Operation.Insert p1 x1, Operation.Insert p2 x2, Operation.Insert p3 x3,
          Operation.Insert p4 x4, Operation.Insert p5 x5].foldl
            (fun b op => op.apply b) b0) cur).2.1.textBytes = b0.textBytes ∧
      ((((((s0.record (Operation.Insert p1 x1) c1 .Typing t1).record
          (Operation.Insert p2 x2) c2 .Typing t2).record
          (Operation.Insert p3 x3) c3 .Typing t3).record
          (Operation.Insert p4 x4) c4 .Typing t4).record
          (Operation.Insert p5 x5) c5 .Typing t5).undo
        ([Operation.Insert p1 x1, Operation.Insert p2 x2, Operation.Insert p3 x3,
          Operation.Insert p4 x4, Operation.Insert p5 x5].foldl
            (fun b op => op.apply b) b0) cur).2.2 = some c1) ∧
    (∀ (s : UndoStack) (op : Operation) (c : CursorState) (t : Nat),
      (s.record op c .Paste t).pending = [op]) ∧
    (∀ (s : UndoStack) (op : Operation) (c : CursorState) (t : Nat),
      s.pending ≠ [] →
      (s.record op c .Paste t).undoGroups =
        { ops := s.pending, cursor_before := s.pending_cursor.getD c,
          cursor_after := c } :: s.undoGroups) ∧
    (∀ (s : UndoStack) (op op2 : Operation) (c c2 : CursorState) (t t2 : Nat),
      ((s.record op c .Paste t).record op2 c2 .Typing t2).pending = [op2] ∧
      ((s.record op c .Paste t).record op2 c2 .Typing t2).undoGroups =
        { ops := [op], cursor_before := c, cursor_after := c2 } ::
          (s.record op c .Paste t).undoGroups) := by
  refine ⟨?_, ?_, ?_, ?_⟩
  · intro s0 b0 p1 p2 p3 p4 p5 x1 x2 x3 x4 x5 c1 c2 c3 c4 c5 cur t1 t2 t3 t4 t5
    intro hp0 hw hv h12 h23 h34 h45
    obtain ⟨ug, rg, pd, pc, cx, le, sv⟩ := s0
    have hp0' : pd = [] := hp0
    subst hp0'
    have e1 : UndoStack.record ⟨ug, rg, [], pc, cx, le, sv⟩
        (Operation.Insert p1 x1) c1 .Typing t1 =
        ⟨ug, [], [Operation.Insert p1 x1], some c1, .Typing, some t1, sv⟩ := rfl
    have e2 : UndoStack.record
        ⟨ug, [], [Operation.Insert p1 x1], some c1, .Typing, some t1, sv⟩
        (Operation.Insert p2 x2) c2 .Typing t2 =
        ⟨ug, [], [Operation.Insert p1 x1, Operation.Insert p2 x2], some c1,
          .Typing, some t2, sv⟩ := by
      rw [UndoStack.record_coalesce _ _ _ _ t1 (by simp) rfl rfl h12]
      rfl
    have e3 : UndoStack.record
        ⟨ug, [], [Operation.Insert p1 x1, Operation.Insert p2 x2], some c1,
          .Typing, some t2, sv⟩
        (Operation.Insert p3 x3) c3 .Typing t3 =
        ⟨ug, [], [Operation.Insert p1 x1, Operation.Insert p2 x2,
          Operation.Insert p3 x3], some c1, .Typing, some t3, sv⟩ := by
      rw [UndoStack.record_coalesce _ _ _ _ t2 (by simp) rfl rfl h23]
      rfl
    have e4 : UndoStack.record
        ⟨ug, [], [Operation.Insert p1 x1, Operation.Insert p2 x2,
          Operation.Insert p3 x3], some c1, .Typing, some t3, sv⟩
        (Operation.Insert p4 x4) c4 .Typing t4 =
        ⟨ug, [], [Operation.Insert p1 x1, Operation.Insert p2 x2,
          Operation.Insert p3 x3, Operation.Insert p4 x4], some c1, .Typing,
          some t4, sv⟩ := by
      rw [UndoStack.record_coalesce _ _ _ _ t3 (by simp) rfl rfl h34]
      rfl
    have e5 : UndoStack.record
        ⟨ug, [], [Operation.Insert p1 x1, Operation.Insert p2 x2,
          Operation.Insert p3 x3, Operation.Insert p4 x4], some c1, .Typing,
          some t4, sv⟩
        (Operation.Insert p5 x5) c5 .Typing t5 =
        ⟨ug, [], [Operation.Insert p1 x1, Operation.Insert p2 x2,
          Operation.Insert p3 x3, Operation.Insert p4 x4, Operation.Insert p5 x5],
          some c1, .Typing, some t5, sv⟩ := by
      rw [UndoStack.record_coalesce _ _ _ _ t4 (by simp) rfl rfl h45]
      rfl
    rw [e1, e2, e3, e4, e5]
    obtain ⟨hc, ht, _, _, _⟩ := UndoStack.undo_pending_spec
      ⟨ug, [], [Operation.Insert p1 x1, Operation.Insert p2 x2,
        Operation.Insert p3 x3, Operation.Insert p4 x4, Operation.Insert p5 x5],
        some c1, .Typing, some t5, sv⟩ b0 cur
      [Operation.Insert p1 x1, Operation.Insert p2 x2, Operation.Insert p3 x3,
        Operation.Insert p4 x4, Operation.Insert p5 x5] hw hv rfl (by simp)
    exact ⟨rfl, rfl, ht, by rw [hc]; rfl⟩
  · intro s op c t
    by_cases hp : s.pending = []
    · rw [UndoStack.record_pending_empty s op c .Paste t hp]
    · rw [UndoStack.record_split_pending s op c .Paste t hp (Or.inl rfl)]
  · intro s op c t hp
    rw [UndoStack.record_split_pending s op c .Paste t hp (Or.inl rfl)]
  · intro s op op2 c c2 t t2
    have hrec : s.record op c .Paste t =
        { s with pending := [op]
                 pending_cursor := some c
                 undoGroups := (if s.pending = [] then s.undoGroups else
                   { ops := s.pending
                     cursor_before := s.pending_cursor.getD c
                     cursor_after := c } :: s.undoGroups)
                 context := .Paste
                 last_edit := some t
                 redoGroups := [] } := by
      by_cases hp : s.pending = []
      · rw [UndoStack.record_pending_empty s op c .Paste t hp, if_pos hp]
      · rw [UndoStack.record_split_pending s op c .Paste t hp (Or.inl rfl),
          if_neg hp]
    rw [hrec]
    rw [UndoStack.record_split_pending _ op2 c2 .Typing t2 (by simp)
      (Or.inr (Or.inr (Or.inr (by simp))))]
    constructor
    · rfl
    · rfl


/-- Witness for C3: five one-byte typing inserts spelling "hello" at
time 0 coalesce and one undo empties the buffer again. -/
theorem typing_coalesces_and_paste_is_atomic_witness :
    ((((((UndoStack.new.record (Operation.Insert 0 [104]) ⟨0, 0, 0⟩ .Typing 0).record
        (Operation.Insert 1 [101]) ⟨0, 1, 1⟩ .Typing 0).record
        (Operation.Insert 2 [108]) ⟨0, 2, 2⟩ .Typing 0).record
        (Operation.Insert 3 [108]) ⟨0, 3, 3⟩ .Typing 0).record
        (Operation.Insert 4 [111]) ⟨0, 4, 4⟩ .Typing 0).undo
      ([Operation.Insert 0 [104], Operation.Insert 1 [101], Operation.Insert 2 [108],
        Operation.Insert 3 [108], Operation.Insert 4 [111]].foldl
          (fun b op => op.apply b) c3buf) ⟨0, 5, 5⟩).2.1.textBytes =
      c3buf.textBytes ∧
    ((((((UndoStack.new.record (Operation.Insert 0 [104]) ⟨0, 0, 0⟩ .Typing 0).record
        (Operation.Insert 1 [101]) ⟨0, 1, 1⟩ .Typing 0).record
        (Operation.Insert 2 [108]) ⟨0, 2, 2⟩ .Typing 0).record
        (Operation.Insert 3 [108]) ⟨0, 3, 3⟩ .Typing 0).record
        (Operation.Insert 4 [111]) ⟨0, 4, 4⟩ .Typing 0).undo
      ([Operation.Insert 0 [104], Operation.Insert 1 [101], Operation.Insert 2 [108],
        Operation.Insert 3 [108], Operation.Insert 4 [111]].foldl
          (fun b op => op.apply b) c3buf) ⟨0, 5, 5⟩).2.2 = some ⟨0, 0, 0⟩ :=
  ⟨(typing_coalesces_and_paste_is_atomic.1 UndoStack.new c3buf 0 1 2 3 4
      [104] [101] [108] [108] [111] ⟨0, 0, 0⟩ ⟨0, 1, 1⟩ ⟨0, 2, 2⟩ ⟨0, 3, 3⟩
      ⟨0, 4, 4⟩ ⟨0, 5, 5⟩ 0 0 0 0 0 rfl (by decide) (by decide) (by decide)
      (by decide) (by decide) (by decide)).2.2.1,
   (typing_coalesces_and_paste_is_atomic.1 UndoStack.new c3buf 0 1 2 3 4
      [104] [101] [108] [108] [111] ⟨0, 0, 0⟩ ⟨0, 1, 1⟩ ⟨0, 2, 2⟩ ⟨0, 3, 3⟩
      ⟨0, 4, 4⟩ ⟨0, 5, 5⟩ 0 0 0 0 0 rfl (by decide) (by decide) (by decide)
      (by decide) (by decide) (by decide)).2.2.2⟩


/-- C2 counterexample: replace-all on "foo foo foo" does yield
"bar bar bar" and report 3 replacements, but a single undo yields
" bar bar" — it removes only the re-inserted "bar" of the first-applied
match instead of reverting one whole replacement, so the buffer matches
none of the states a whole-replacement revert could produce. -/
theorem replace_all_single_undo_not_whole_replacement :
    c2run.1.textBytes = strBytes ("bar bar bar") ∧
    c2run.2.2.2 = 3 ∧
    c2undo1.2.1.textBytes = strBytes (" bar bar") ∧
    c2undo1.2.1.textBytes ≠ strBytes ("foo bar bar") ∧
    c2undo1.2.1.textBytes ≠ strBytes ("bar foo bar") ∧
    c2undo1.2.1.textBytes ≠ strBytes ("bar bar foo") ∧
    c2undo1.2.1.textBytes ≠ strBytes ("foo foo foo") ∧
    c2undo1.2.1.textBytes ≠ strBytes ("bar bar bar") := by
  decide

/-- C2 amended: each replacement is recorded as a Delete at the match
start followed by an Insert of the replacement under the always-atomic
Other context, but that context makes every recorded operation its own
undo group, so one undo reverts one operation and two successive undos
revert one whole replacement, in reverse application order: replace-all
on "foo foo foo" with "foo" → "bar" yields "bar bar bar", reports 3
replacements, and after 2, 4 and 6 undos the buffer reads
"foo bar bar", "foo foo bar" and "foo foo foo". -/
theorem replace_all_undoes_per_operation :
    (∀ (s : UndoStack) (op : Operation) (c : CursorState) (t : Nat),
      (s.record op c .Other t).pending = [op]) ∧
    c2run.1.textBytes = strBytes ("bar bar bar") ∧
    c2run.2.2.2 = 3 ∧
    c2undo2.2.1.textBytes = strBytes ("foo bar bar") ∧
    c2undo4.2.1.textBytes = strBytes ("foo foo bar") ∧
    c2undo6.2.1.textBytes = strBytes ("foo foo foo") := by
  refine ⟨?_, by decide, by decide, by decide, by decide, by decide⟩
  intro s op c t
  by_cases hp : s.pending = []
  · rw [UndoStack.record_pending_empty s op c .Other t hp]
  · rw [UndoStack.record_split_pending s op c .Other t hp
      (Or.inr (Or.inr (Or.inl rfl)))]

/-- C4: `Buffer::delete` with zero length, or a position at or after the
logical length, returns the empty removal and leaves the whole buffer
unchanged; for an in-range position the length is clamped to the
remaining bytes, the returned bytes are exactly the removed ones, and
the remaining content drops exactly that range. -/
theorem delete_clamps_and_returns_removed (b : Buffer) (pos n : Nat) (hw : b.Wf) :
    b.delete pos 0 = (b, []) ∧
    (b.len ≤ pos → b.delete pos n = (b, [])) ∧
    (pos < b.len → 0 < n →
      (b.delete pos n).2 = (b.textBytes.drop pos).take (min n (b.len - pos)) ∧
      (b.delete pos n).1.textBytes =
        b.textBytes.take pos ++ b.textBytes.drop (pos + min n (b.len - pos))) := by
  refine ⟨by rw [Buffer.delete_eq, if_pos (Or.inl rfl)], ?_, ?_⟩
  · intro hp
    rw [Buffer.delete_eq, if_pos (Or.inr hp)]
  · intro hp hn
    obtain ⟨_, h2, h3, _, _, _⟩ := Buffer.delete_spec b pos n hw hp hn
    exact ⟨h2, h3⟩


/-- Witness for C4: deleting 5 bytes at position 1 of "hi" removes
exactly "i" and leaves "h"; deleting at or past the end changes nothing. -/
theorem delete_clamps_and_returns_removed_witness :
    (hiBuf.delete 1 5).2 = [105] ∧
    (hiBuf.delete 1 5).1.textBytes = [104] ∧
    hiBuf.delete 2 5 = (hiBuf, []) ∧
    hiBuf.delete 1 0 = (hiBuf, []) := by
  have h := delete_clamps_and_returns_removed hiBuf 1 5 (by decide)
  have h2 := delete_clamps_and_returns_removed hiBuf 2 5 (by decide)
  obtain ⟨ha, hb⟩ := h.2.2 (by decide) (by decide)
  refine ⟨?_, ?_, h2.2.1 (by decide), h.1⟩
  · rw [ha]
    decide
  · rw [hb]
    decide

-- ---------------------------------------------------------------------------
-- C5: structural invariants after every operation
-- ---------------------------------------------------------------------------


theorem bufferInv_of_canonical (b : Buffer) (hw : b.Wf)
    (hl : b.lines = lineStartsOf b.textBytes) : BufferInv b := by
  unfold BufferInv
  obtain ⟨h1, h2⟩ := hw
  obtain ⟨l1, l2, _⟩ := lineStartsOf_spec b.textBytes
  have hlen : b.len = b.data.length - (b.gap_end - b.gap_start) := rfl
  have hgl : b.gapLen = b.gap_end - b.gap_start := rfl
  refine ⟨h1, h2, by rw [hlen, hgl]; omega, by rw [hl]; exact l1,
    by rw [hl]; exact l2, ?_⟩
  rw [hl, lineStartsOf]
  refine List.pairwise_cons.mpr ⟨?_, newlineIdx_sorted b.textBytes⟩
  intro x hx
  rw [List.mem_filterMap] at hx
  obtain ⟨a, _, hfa⟩ := hx
  by_cases hc : b.textBytes[a]? = some 10
  · rw [if_pos hc] at hfa
    have : a + 1 = x := Option.some_inj.mp hfa
    omega
  · rw [if_neg hc] at hfa
    exact absurd hfa (by simp)

/-- C5: the buffer invariants hold after `new` and `from_file`, and are
preserved by `insert` and `delete`. -/
theorem buffer_ops_preserve_invariants :
    BufferInv Buffer.new ∧
    (∀ content, BufferInv (Buffer.fromFile content)) ∧
    (∀ (b : Buffer) (pos : Nat) (t : List Nat),
      b.Wf → BufferInv (b.insert pos t)) ∧
    (∀ (b : Buffer) (pos n : Nat),
      b.Wf → BufferInv b → BufferInv (b.delete pos n).1) := by
  have hnew : BufferInv Buffer.new := by
    have hwn : Buffer.new.Wf := by
      constructor
      · show 0 ≤ INITIAL_GAP
        omega
      · show INITIAL_GAP ≤ (List.replicate INITIAL_GAP (0 : Nat)).length
        simp
    have htn : Buffer.new.textBytes = [] := by
      show (List.replicate INITIAL_GAP (0 : Nat)).take 0 ++
        (List.replicate INITIAL_GAP (0 : Nat)).drop INITIAL_GAP = []
      simp
    refine bufferInv_of_canonical Buffer.new hwn ?_
    rw [htn]
    rfl
  refine ⟨hnew, ?_, ?_, ?_⟩
  · intro content
    set g := max INITIAL_GAP (content.length / 4) with hg
    have hwraw : Buffer.Wf
        { data := content ++ List.replicate g 0, gap_start := content.length,
          gap_end := content.length + g, lines := [], modified := false } := by
      constructor
      · show content.length ≤ content.length + g
        omega
      · show content.length + g ≤ (content ++ List.replicate g 0).length
        simp
    refine bufferInv_of_canonical (Buffer.fromFile content) hwraw ?_
    exact Buffer.rebuildLines_lines _ hwraw
  · intro b pos t hw
    obtain ⟨hwI, _, hlines, _, _⟩ := Buffer.insert_spec b pos t hw
    exact bufferInv_of_canonical _ hwI hlines
  · intro b pos n hw hinv
    by_cases hc : n = 0 ∨ b.len ≤ pos
    · rw [Buffer.delete_eq, if_pos hc]
      exact hinv
    · push_neg at hc
      obtain ⟨hw4, _, _, hlines, _, _⟩ :=
        Buffer.delete_spec b pos n hw (by omega) (by omega)
      exact bufferInv_of_canonical _ hw4 hlines


/-- Witness for C5 at concrete buffers. -/
theorem buffer_ops_preserve_invariants_witness :
    BufferInv (hiBufGap.insert 1 [10, 120]) ∧
    BufferInv (hiBuf.delete 0 1).1 :=
  ⟨buffer_ops_preserve_invariants.2.2.1 hiBufGap 1 [10, 120] (by decide),
    buffer_ops_preserve_invariants.2.2.2 hiBuf 0 1 (by decide) (by decide)⟩

/-- C6: `find_all_matches` reports, for any text and pattern, ranges of
exactly the pattern's byte length lying inside the text, pairwise
non-overlapping and sorted (each range ends at or before the next one
starts, so overlapping occurrences are never reported — scanning resumes
at each match's end), the empty pattern yields no matches, and on the
claim's concrete inputs: "aaa"/"aa" gives [(0,2)], "hello hello"/"hello"
gives [(0,5),(6,11)], and the lowercase fold makes "Hello HELLO" match
"hello" at the same ranges. -/
theorem find_all_matches_spec :
    (∀ t, findAllMatches t [] = []) ∧
    (∀ t p r, r ∈ findAllMatches t p →
      r.2 = r.1 + p.length ∧ r.2 ≤ t.length) ∧
    (∀ t p, List.Pairwise (fun x y => x.2 ≤ y.1 ∧ x.1 < y.1)
      (findAllMatches t p)) ∧
    findAllMatches (strBytes ("aaa")) (strBytes ("aa")) = [(0, 2)] ∧
    findAllMatches (strBytes ("hello hello")) (strBytes ("hello")) =
      [(0, 5), (6, 11)] ∧
    findAllMatches (strBytes ("Hello HELLO")) (strBytes ("hello")) =
      [(0, 5), (6, 11)] := by
  refine ⟨?_, ?_, ?_, by decide, by decide, by decide⟩
  · intro t
    rw [findAllMatches, if_pos rfl]
  · intro t p r hr
    by_cases hp : p = []
    · subst hp
      rw [findAllMatches, if_pos rfl] at hr
      simp at hr
    · rw [findAllMatches, if_neg hp] at hr
      obtain ⟨_, h2, h3⟩ := findAllLoop_bounds (lowerBytes t) (lowerBytes p) _ _ r hr
      rw [lowerBytes_length] at h2 h3
      exact ⟨h2, h3⟩
  · intro t p
    by_cases hp : p = []
    · subst hp
      rw [findAllMatches, if_pos rfl]
      simp
    · rw [findAllMatches, if_neg hp]
      refine findAllLoop_pairwise (lowerBytes t) (lowerBytes p) ?_ _ _
      intro hc
      exact hp (by simpa [lowerBytes] using congrArg List.length hc)

/-- Witness for C6: the membership fact is instantiated at the first
match of "hello hello". -/
theorem find_all_matches_spec_witness :
    ((0 : Nat), (5 : Nat)).2 =
      ((0 : Nat), (5 : Nat)).1 + (strBytes ("hello")).length ∧
    ((0 : Nat), (5 : Nat)).2 ≤ (strBytes ("hello hello")).length :=
  find_all_matches_spec.2.1 (strBytes ("hello hello")) (strBytes ("hello"))
    (0, 5) (by decide)

/-- C7: `move_home` computes the first non-blank byte index of the
current line (first byte that is not a space and not a tab, defaulting
to 0 on an all-blank line) and follows exactly the branch precedence of
the source: above it go to it, exactly on a nonzero one go to 0, and in
every other case — including column 0 on an unindented line, which
therefore stays at 0 — go to the first non-blank index; the line never
changes and the desired column is reset to the resulting column. -/
theorem move_home_branch_precedence (c : Cursor) (b : Buffer) :
    (c.moveHome b).line = c.line ∧
    (c.moveHome b).desired_col = (c.moveHome b).col ∧
    (firstNonWs ((b.getLine c.line).getD []) < c.col →
      (c.moveHome b).col = firstNonWs ((b.getLine c.line).getD [])) ∧
    (c.col = firstNonWs ((b.getLine c.line).getD []) →
      firstNonWs ((b.getLine c.line).getD []) ≠ 0 →
      (c.moveHome b).col = 0) ∧
    (c.col ≤ firstNonWs ((b.getLine c.line).getD []) →
      (c.col ≠ firstNonWs ((b.getLine c.line).getD []) ∨
        firstNonWs ((b.getLine c.line).getD []) = 0) →
      (c.moveHome b).col = firstNonWs ((b.getLine c.line).getD [])) ∧
    (c.col = 0 → firstNonWs ((b.getLine c.line).getD []) = 0 →
      (c.moveHome b).col = 0) := by
  refine ⟨rfl, rfl, ?_, ?_, ?_, ?_⟩
  · intro h
    show (if firstNonWs ((b.getLine c.line).getD []) < c.col then
        firstNonWs ((b.getLine c.line).getD [])
      else if c.col = firstNonWs ((b.getLine c.line).getD []) ∧
          firstNonWs ((b.getLine c.line).getD []) ≠ 0 then 0
      else firstNonWs ((b.getLine c.line).getD [])) =
      firstNonWs ((b.getLine c.line).getD [])
    rw [if_pos h]
  · intro h1 h2
    show (if firstNonWs ((b.getLine c.line).getD []) < c.col then
        firstNonWs ((b.getLine c.line).getD [])
      else if c.col = firstNonWs ((b.getLine c.line).getD []) ∧
          firstNonWs ((b.getLine c.line).getD []) ≠ 0 then 0
      else firstNonWs ((b.getLine c.line).getD [])) = 0
    rw [if_neg (by omega), if_pos ⟨h1, h2⟩]
  · intro h1 h2
    show (if firstNonWs ((b.getLine c.line).getD []) < c.col then
        firstNonWs ((b.getLine c.line).getD [])
      else if c.col = firstNonWs ((b.getLine c.line).getD []) ∧
          firstNonWs ((b.getLine c.line).getD []) ≠ 0 then 0
      else firstNonWs ((b.getLine c.line).getD [])) =
      firstNonWs ((b.getLine c.line).getD [])
    rw [if_neg (by omega), if_neg (by rcases h2 with h | h
                                      · exact fun hand => h hand.1
                                      · exact fun hand => hand.2 h)]
  · intro h1 h2
    show (if firstNonWs ((b.getLine c.line).getD []) < c.col then
        firstNonWs ((b.getLine c.line).getD [])
      else if c.col = firstNonWs ((b.getLine c.line).getD []) ∧
          firstNonWs ((b.getLine c.line).getD []) ≠ 0 then 0
      else firstNonWs ((b.getLine c.line).getD [])) = 0
    rw [if_neg (by omega), if_neg (by exact fun hand => hand.2 h2), h2]


/-- Witness for C7: the smart-home toggle on "    indented" sends column
10 to 4, column 4 to 0 and column 0 back to 4, and column 0 on an
unindented line stays at 0. -/
theorem move_home_branch_precedence_witness :
    (Cursor.moveHome ⟨0, 10, 10⟩ indentBuf).col = 4 ∧
    (Cursor.moveHome ⟨0, 4, 4⟩ indentBuf).col = 0 ∧
    (Cursor.moveHome ⟨0, 0, 0⟩ indentBuf).col = 4 ∧
    (Cursor.moveHome ⟨0, 0, 0⟩ hiBuf).col = 0 := by
  have h1 := (move_home_branch_precedence ⟨0, 10, 10⟩ indentBuf).2.2.1 (by decide)
  have h2 := (move_home_branch_precedence ⟨0, 4, 4⟩ indentBuf).2.2.2.1
    (by decide) (by decide)
  have h3 := (move_home_branch_precedence ⟨0, 0, 0⟩ indentBuf).2.2.2.2.1
    (by decide) (by decide)
  have h4 := (move_home_branch_precedence ⟨0, 0, 0⟩ hiBuf).2.2.2.2.2
    (by decide) (by decide)
  refine ⟨?_, h2, ?_, h4⟩
  · rw [h1]
    decide
  · rw [h3]
    decide


/-- C8 counterexample: at the top line, `move_up` moves nothing — the
column stays 2 instead of becoming min(desired_col, line length) = 5 as
the claim asserts for every vertical move. -/
theorem move_up_top_line_keeps_col :
    (Cursor.moveUp ⟨0, 2, 10⟩ helloBuf).col = 2 ∧
    min (10 : Nat) (lineByteLen helloBuf 0) = 5 ∧
    (Cursor.moveUp ⟨0, 2, 10⟩ helloBuf).col ≠
      min (10 : Nat) (lineByteLen helloBuf 0) ∧
    (Cursor.moveUp ⟨0, 2, 10⟩ helloBuf).desired_col = 10 := by
  decide

/-- C8 amended: every horizontal, word, home or end move sets
`desired_col` to the resulting column, and vertical or page moves leave
`desired_col` unchanged; `move_up`/`move_down` set
col = min(desired_col, new line's byte length) only when they actually
change the line (at the boundary the cursor is left untouched), while
the page moves always re-derive the column that way. -/
theorem desired_col_reset_discipline (c : Cursor) (b : Buffer) (h : Nat) :
    (c.moveLeft b).desired_col = (c.moveLeft b).col ∧
    (c.moveRight b).desired_col = (c.moveRight b).col ∧
    (c.moveWordLeft b).desired_col = (c.moveWordLeft b).col ∧
    (c.moveWordRight b).desired_col = (c.moveWordRight b).col ∧
    (c.moveHome b).desired_col = (c.moveHome b).col ∧
    (c.moveEnd b).desired_col = (c.moveEnd b).col ∧
    (c.moveUp b).desired_col = c.desired_col ∧
    (c.moveDown b).desired_col = c.desired_col ∧
    (c.movePageUp b h).desired_col = c.desired_col ∧
    (c.movePageDown b h).desired_col = c.desired_col ∧
    c.moveUp b = (if 0 < c.line then
      { line := c.line - 1, col := min c.desired_col (lineByteLen b (c.line - 1)),
        desired_col := c.desired_col } else c) ∧
    c.moveDown b = (if c.line + 1 < b.lineCount then
      { line := c.line + 1, col := min c.desired_col (lineByteLen b (c.line + 1)),
        desired_col := c.desired_col } else c) ∧
    c.movePageUp b h =
      { line := c.line - h, col := min c.desired_col (lineByteLen b (c.line - h)),
        desired_col := c.desired_col } ∧
    c.movePageDown b h =
      { line := min (c.line + h) (b.lineCount - 1),
        col := min c.desired_col (lineByteLen b (min (c.line + h) (b.lineCount - 1))),
        desired_col := c.desired_col } := by
  refine ⟨?_, ?_, ?_, ?_, rfl, rfl, ?_, ?_, rfl, rfl, ?_, ?_, rfl, rfl⟩
  · rw [Cursor.moveLeft]
    split_ifs <;> rfl
  · rw [Cursor.moveRight]
    split_ifs <;> rfl
  · rw [Cursor.moveWordLeft]
    split_ifs <;> rfl
  · rw [Cursor.moveWordRight]
    split_ifs <;> rfl
  · rw [Cursor.moveUp]
    split_ifs <;> rfl
  · rw [Cursor.moveDown]
    split_ifs <;> rfl
  · rw [Cursor.moveUp]
  · rw [Cursor.moveDown]

theorem Buffer.getLine_congr (b b' : Buffer) (hl : b'.lines = b.lines)
    (hlen : b'.len = b.len) (hba : ∀ i, b'.byteAt i = b.byteAt i) (l : Nat) :
    b'.getLine l = b.getLine l := by
  rw [Buffer.getLine, Buffer.getLine, hl, hlen]
  by_cases hc : b.lines.length ≤ l
  · rw [if_pos hc, if_pos hc]
  · rw [if_neg hc, if_neg hc]
    simp only [hba]

/-- C9: the readable content is exactly the logical sequence "bytes
before the gap ++ bytes after the gap": `byte_at` is the pointwise read
of that sequence through the logical-to-physical translation, `len` is
its length, and `move_gap` and `ensure_gap` change no read result —
`text`, `len`, `byte_at` and `get_line` are all invariant under gap
relocation and growth. -/
theorem reads_invariant_under_gap_motion (b : Buffer) (hw : b.Wf) :
    (∀ i, b.byteAt i = b.textBytes[i]?) ∧
    b.len = b.textBytes.length ∧
    (∀ p, (b.moveGap p).textBytes = b.textBytes ∧
      (b.moveGap p).len = b.len ∧
      (∀ i, (b.moveGap p).byteAt i = b.byteAt i) ∧
      (∀ l, (b.moveGap p).getLine l = b.getLine l)) ∧
    (∀ k, (b.ensureGap k).textBytes = b.textBytes ∧
      (b.ensureGap k).len = b.len ∧
      (∀ i, (b.ensureGap k).byteAt i = b.byteAt i) ∧
      (∀ l, (b.ensureGap k).getLine l = b.getLine l)) := by
  refine ⟨Buffer.byteAt_eq b hw, (Buffer.textBytes_length b hw).symm, ?_, ?_⟩
  · intro p
    obtain ⟨hw2, ht2, _, _, hl2, _, hlines2, _⟩ := Buffer.moveGap_spec b p hw
    have hba : ∀ i, (b.moveGap p).byteAt i = b.byteAt i := by
      intro i
      rw [Buffer.byteAt_eq _ hw2, Buffer.byteAt_eq _ hw, ht2]
    exact ⟨ht2, hl2, hba, Buffer.getLine_congr b (b.moveGap p) hlines2 hl2 hba⟩
  · intro k
    obtain ⟨hw2, ht2, _, _, hl2, hlines2, _⟩ := Buffer.ensureGap_spec b k hw
    have hba : ∀ i, (b.ensureGap k).byteAt i = b.byteAt i := by
      intro i
      rw [Buffer.byteAt_eq _ hw2, Buffer.byteAt_eq _ hw, ht2]
    exact ⟨ht2, hl2, hba, Buffer.getLine_congr b (b.ensureGap k) hlines2 hl2 hba⟩


/-- Witness for C9 at a buffer whose gap sits mid-content. -/
theorem reads_invariant_under_gap_motion_witness :
    (hiSplitBuf.moveGap 0).textBytes = hiSplitBuf.textBytes ∧
    (hiSplitBuf.moveGap 2).getLine 0 = hiSplitBuf.getLine 0 ∧
    hiSplitBuf.byteAt 1 = hiSplitBuf.textBytes[1]? :=
  ⟨((reads_invariant_under_gap_motion hiSplitBuf (by decide)).2.2.1 0).1,
   ((reads_invariant_under_gap_motion hiSplitBuf (by decide)).2.2.1 2).2.2.2 0,
   (reads_invariant_under_gap_motion hiSplitBuf (by decide)).1 1⟩

/-- C10: inserting the empty string leaves the logical content and the
line-start index unchanged (for any buffer whose line index is the
canonical one for its content) but still sets the modified flag, so
`is_modified` reports true although no byte was added. -/
theorem insert_empty_marks_modified (b : Buffer) (pos : Nat) (hw : b.Wf)
    (hl : b.lines = lineStartsOf b.textBytes) :
    (b.insert pos []).textBytes = b.textBytes ∧
    (b.insert pos []).lines = b.lines ∧
    (b.insert pos []).isModified = true := by
  obtain ⟨hwI, ht, hlines, hmod, _⟩ := Buffer.insert_spec b pos [] hw
  have htxt : (b.insert pos []).textBytes = b.textBytes := by
    rw [ht, List.append_nil, List.take_append_drop]
  refine ⟨htxt, ?_, ?_⟩
  · rw [hlines, htxt, ← hl]
  · show (b.insert pos []).modified = true
    exact hmod

/-- Witness for C10: an empty insert into "a\nb" keeps content and line
index but flips the modified flag. -/
theorem insert_empty_marks_modified_witness :
    (abBuf.insert 1 []).textBytes = abBuf.textBytes ∧
    (abBuf.insert 1 []).lines = abBuf.lines ∧
    (abBuf.insert 1 []).isModified = true :=
  insert_empty_marks_modified abBuf 1 (by decide) (by decide)
